import Mathlib

/-!
Verification of the map-driven real-estate scraper (`realEstate.py` /
`real_estate_eng.py`): a shallow embedding of its pure computations and of
its effectful procedures (as functions over explicit effect-outcome
environments and state-transition relations), together with proofs of the
specification's claims.

Modelling conventions:
* Python strings are `String` / `List Char`; Python integers are `Nat`/`Int`
  (arbitrary precision in Python, so no wrap-around).
* `None`-or-value results are `Option`; a raised exception is the `error`
  case of `Except`.
* Each `re.search` call of the source is embedded by a specialised scanner
  implementing the leftmost-match semantics of that concrete pattern
  (the patterns are all of the "literal/digit-run" kind, so no general
  backtracking is needed; where `\s*` overlaps a following character class
  the resolution of the Python engine is reproduced).
* `int(float(g) * 100_000_000)` in the currency parser is modelled by exact
  integer arithmetic (truncating division); Python computes through a binary
  double, which on some fractional groups (e.g. `0.29`) truncates one unit
  lower.  The theorems below use this definition only on groups where the
  two agree (`7.5` is exact in binary) or inside scopes where the `억`
  branch is not taken.
* Python's `\d` and `int()` accept every Unicode decimal digit, and
  `str.strip()` removes Unicode whitespace; the currency theorems quantified
  over all inputs therefore carry an explicit all-ASCII scope hypothesis,
  under which the byte-level model here is exact.
* Real-valued map-projection arithmetic is modelled over `ℝ`.
-/

/-! ## Basic Python string helpers -/

/-- The whitespace set of Python's `str.strip()` / `str.isspace()` / `\s`
(CPython's `Py_UNICODE_ISSPACE`): the ASCII controls 0x09-0x0D and
0x1C-0x1F, the space, NEL (0x85), NBSP (0xA0), the Ogham space mark, the
Unicode space separators 0x2000-0x200A, the line and paragraph separators,
the narrow no-break space, the medium mathematical space and the
ideographic space. -/
def pyIsSpace (c : Char) : Bool :=
  let n := c.toNat
  (9 ≤ n && n ≤ 13) || (28 ≤ n && n ≤ 31) || n = 32 || n = 133 || n = 160 ||
  n = 0x1680 || (0x2000 ≤ n && n ≤ 0x200A) || n = 0x2028 || n = 0x2029 ||
  n = 0x202F || n = 0x205F || n = 0x3000

/-- Python `str.strip()` on a character list. -/
def pyStripL (cs : List Char) : List Char :=
  ((cs.dropWhile pyIsSpace).reverse.dropWhile pyIsSpace).reverse

/-- Python `str.strip()` on a `String`. -/
def pyStrip (s : String) : String :=
  String.mk (pyStripL s.toList)

/-- Does `pre` occur as a prefix of `cs`? -/
def listStartsWith : List Char → List Char → Bool
  | [], _ => true
  | _ :: _, [] => false
  | a :: as', b :: bs => a = b && listStartsWith as' bs

/-- Python `sub in hay` (substring containment) on character lists. -/
def containsSubL (sub : List Char) : List Char → Bool
  | [] => sub.isEmpty
  | c :: rest => listStartsWith sub (c :: rest) || containsSubL sub rest

/-- Python `sub in hay` on strings. -/
def pyContains (hay sub : String) : Bool :=
  containsSubL sub.toList hay.toList

/-- Numeric value of a digit run (`int` on a `\d+` group). -/
def digitsToNat (ds : List Char) : Nat :=
  ds.foldl (fun acc c => acc * 10 + (c.toNat - '0'.toNat)) 0

/-! ## CurrencyParser: `parse_kr_money_to_won`

Source: `realEstate.py` lines 272-332 and `real_estate_eng.py` lines
359-431 (the two variants are textually identical here). -/

/-- The normalised text `t` of `parse_kr_money_to_won`:
`s.strip().replace(" ", "").replace(",", "")` with `"원"` then removed.
All three replacements are single-character deletions, so they are filters. -/
def moneyNormalize (s : String) : List Char :=
  (((pyStripL s.toList).filter (fun c => c ≠ ' ')).filter
      (fun c => c ≠ ',')).filter (fun c => c ≠ '원')

/-- `has_won = "원" in t` (checked before `"원"` is removed). -/
def moneyHasWon (s : String) : Bool :=
  (((pyStripL s.toList).filter (fun c => c ≠ ' ')).filter
      (fun c => c ≠ ',')).contains '원'

/-- `re.search(r"(\d+(?:\.\d+)?)억", t)`: the leftmost maximal digit run,
optionally followed by `.` and a fraction digit run, immediately followed by
`억`; returns the integer and fraction groups.  A failed attempt resumes one
position later, which (since a shorter suffix of the same run fails the same
way) is implemented by resuming on the tail. -/
def searchEokNum : List Char → Option (List Char × Option (List Char))
  | [] => none
  | c :: rest =>
    if c.isDigit then
      let r := c :: rest.takeWhile Char.isDigit
      match rest.dropWhile Char.isDigit with
      | [] => none
      | a :: rest2 =>
        if a = '억' then some (r, none)
        else if a = '.' then
          match rest2 with
          | [] => none
          | d :: _ =>
            if d.isDigit then
              match rest2.dropWhile Char.isDigit with
              | b :: _ =>
                if b = '억' then some (r, some (rest2.takeWhile Char.isDigit))
                else searchEokNum rest
              | [] => searchEokNum rest
            else searchEokNum rest
        else searchEokNum rest
    else searchEokNum rest

/-- `re.search(r"억(\d+)X", t)` for a literal terminator character `X`
(`만` or `천` in the source): the leftmost `억` followed by a nonempty digit
run immediately followed by `X`. -/
def searchEokDigitsThen (target : Char) : List Char → Option (List Char)
  | [] => none
  | c :: rest =>
    if c = '억' then
      let d := rest.takeWhile Char.isDigit
      match rest.dropWhile Char.isDigit with
      | b :: _ =>
        if !d.isEmpty && b = target then some d else searchEokDigitsThen target rest
      | [] => searchEokDigitsThen target rest
    else searchEokDigitsThen target rest

/-- `re.search(r"억(\d+)$", t)`: `억` followed by a nonempty digit run that
reaches the end of the text.  `$` is modelled as strict end-of-text;
Python's `$` also matches just before a single trailing newline, which `t`
can exhibit only when the `'원'` removal exposes one (e.g. `"1억23\n원"`) —
a case outside every theorem proved below. -/
def searchEokDigitsEnd : List Char → Option (List Char)
  | [] => none
  | c :: rest =>
    if c = '억' then
      let d := rest.takeWhile Char.isDigit
      match rest.dropWhile Char.isDigit with
      | [] => if !d.isEmpty then some d else searchEokDigitsEnd rest
      | _ :: _ => searchEokDigitsEnd rest
    else searchEokDigitsEnd rest

/-- `re.search(r"(\d+)X", t)` for a literal terminator `X` (`만`, or `천` for
the `(\d+)천만?` pattern whose group is unaffected by the optional `만`):
the leftmost maximal digit run immediately followed by `X`. -/
def searchDigitsThen (target : Char) : List Char → Option (List Char)
  | [] => none
  | c :: rest =>
    if c.isDigit then
      let r := c :: rest.takeWhile Char.isDigit
      match rest.dropWhile Char.isDigit with
      | b :: _ => if b = target then some r else searchDigitsThen target rest
      | [] => searchDigitsThen target rest
    else searchDigitsThen target rest

/-- `int(float(g) * 100_000_000)` for a matched group `ip` or `ip.fp`,
modelled exactly (truncating division on nonnegative integers); see the
header note on the binary-float rounding of the source. -/
def eokValue (ip : List Char) (fp : Option (List Char)) : Int :=
  match fp with
  | none => (digitsToNat ip * 100000000 : Nat)
  | some f =>
    (((digitsToNat ip * 10 ^ f.length + digitsToNat f) * 100000000) /
        10 ^ f.length : Nat)

/-- Embedding of `parse_kr_money_to_won` (`realEstate.py` 272-332).
`if not s: return None` is the empty-string test; the final statement
`return total + man * 10_000` returns an integer (possibly `0`) on every
other path. -/
def parse_kr_money_to_won (s : String) : Option Int :=
  if s = "" then none
  else
    let t := moneyNormalize s
    let has_won := moneyHasWon s
    let total : Int :=
      match searchEokNum t with
      | some (ip, fp) => eokValue ip fp
      | none => 0
    let man : Int :=
      match searchEokNum t with
      | some _ =>
        match searchEokDigitsThen '만' t with
        | some d => (digitsToNat d : Int)
        | none =>
          match searchEokDigitsEnd t with
          | some d => (digitsToNat d : Int)
          | none =>
            match searchEokDigitsThen '천' t with
            | some d => (digitsToNat d : Int) * 1000
            | none => 0
      | none =>
        match searchDigitsThen '만' t with
        | some d => (digitsToNat d : Int)
        | none =>
          match searchDigitsThen '천' t with
          | some d => (digitsToNat d : Int) * 1000
          | none => 0
    if total = 0 && man = 0 && !t.isEmpty && t.all Char.isDigit then
      some (if has_won then (digitsToNat t : Int) else (digitsToNat t : Int) * 10000)
    else
      some (total + man * 10000)

/-! ## CoordinateTransform (web-Mercator projection, over `ℝ`)

Source: `realEstate.py` lines 111-125 (`ll_to_pixel`) and 58-69
(`pixel_to_ll`).  `math.radians x = x*π/180`, `math.degrees x = x*180/π`,
`math.atan`/`math.sinh`/`math.log` are the real functions; the float
arithmetic of the source is modelled over `ℝ`. -/

/-- Forward web-Mercator projection `ll_to_pixel(lat, lon, z)`. -/
noncomputable def ll_to_pixel (lat lon : ℝ) (z : ℕ) : ℝ × ℝ :=
  ((lon + 180) / 360 * (256 * 2 ^ z),
   (1 / 2 - Real.log ((1 + Real.sin (lat * Real.pi / 180)) /
       (1 - Real.sin (lat * Real.pi / 180))) / (4 * Real.pi)) * (256 * 2 ^ z))

/-- Inverse projection `pixel_to_ll(x, y, z)`, returning `(lat, lon)`. -/
noncomputable def pixel_to_ll (x y : ℝ) (z : ℕ) : ℝ × ℝ :=
  (Real.arctan (Real.sinh (Real.pi - 2 * Real.pi * y / (256 * 2 ^ z))) * 180 /
      Real.pi,
   x / (256 * 2 ^ z) * 360 - 180)

/-! ## NavigationController: `grid_sweep` sample points

Source: `realEstate.py` lines 71-99.  The effectful sweep first builds the
`coords` list (the pure part embedded here) and then drags to each point. -/

/-- The `coords` list built by `grid_sweep`: for each ring `r = 1..rings`,
for each `dx ∈ [-r, r]`, the two rows `dy ∈ (-r, r)` only. -/
noncomputable def grid_sweep_coords (center_lat center_lon : ℝ) (zoom : ℕ)
    (rings : ℕ) (step_px : ℝ) : List (ℝ × ℝ) :=
  let c := ll_to_pixel center_lat center_lon zoom
  (List.range rings).flatMap (fun r0 =>
    let r : ℤ := (r0 : ℤ) + 1
    (List.range (2 * r0 + 3)).flatMap (fun d =>
      let dx : ℤ := (d : ℤ) - r
      [(-r : ℤ), r].map (fun dy =>
        pixel_to_ll (c.1 + (dx : ℝ) * step_px) (c.2 + (dy : ℝ) * step_px) zoom)))

/-! ## DetailExtractor: pure text extraction helpers

Source: `realEstate.py` lines 335-450 (`scrape_article_detail`).  Each
helper embeds one `re` call of the source. -/

/-- The character class `[\d,억\s만]` of the money-grabbing patterns. -/
def inMoneyClass (c : Char) : Bool :=
  c.isDigit || c = ',' || c = '억' || c = '만' || pyIsSpace c

/-- Matching `\s*([\d,억\s만]+)` at a fixed position (the tail of the
`기전세금`/`최고`/`최저` patterns).  The greedy `\s*` eats the whitespace run;
if the next character is in the class the group is the maximal class run from
there; otherwise the engine backtracks `\s*` by one character, making the
group a single whitespace character (whitespace is in the class); with no
whitespace at all the match fails. -/
def moneyGroupAt (after : List Char) : Option (List Char) :=
  let ws := after.takeWhile pyIsSpace
  let afterWs := after.dropWhile pyIsSpace
  match afterWs with
  | b :: _ =>
    if inMoneyClass b then some (afterWs.takeWhile inMoneyClass)
    else
      match ws.reverse with
      | w :: _ => some [w]
      | [] => none
  | [] =>
    match ws.reverse with
    | w :: _ => some [w]
    | [] => none

/-- `re.search(label + r"\s*([\d,억\s만]+)", body)`: leftmost occurrence of
the literal `label` whose tail matches; returns the (unstripped) group. -/
def searchLabelMoney (label : List Char) : List Char → Option (List Char)
  | [] => none
  | c :: rest =>
    if listStartsWith label (c :: rest) then
      match moneyGroupAt ((c :: rest).drop label.length) with
      | some g => some g
      | none => searchLabelMoney label rest
    else searchLabelMoney label rest

/-- `grab(r"기전세금\s*([\d,억\s만]+)")`: the group of the previous-lease
pattern, stripped; `""` when the pattern does not match. -/
def grabPrevJeonse (body : String) : String :=
  match searchLabelMoney "기전세금".toList body.toList with
  | some g => String.mk (pyStripL g)
  | none => ""

/-- `re.search(r"(\d+)\s*년\s*내\s*" + kw + r"\s*([\d,억\s만]+)", body)` for
the literal keyword `kw` (`최고` / `최저`): returns (year digits, money
group).  A failed attempt at a digit-run start resumes one position later
(equivalent, since shorter suffixes of the run fail identically). -/
def searchYearExtreme (kw : List Char) : List Char → Option (List Char × List Char)
  | [] => none
  | c :: rest =>
    if c.isDigit then
      let yd := c :: rest.takeWhile Char.isDigit
      let a1 := (rest.dropWhile Char.isDigit).dropWhile pyIsSpace
      match a1 with
      | '년' :: a2 =>
        match a2.dropWhile pyIsSpace with
        | '내' :: a3 =>
          let a4 := a3.dropWhile pyIsSpace
          if listStartsWith kw a4 then
            match moneyGroupAt (a4.drop kw.length) with
            | some g => some (yd, g)
            | none => searchYearExtreme kw rest
          else searchYearExtreme kw rest
        | _ => searchYearExtreme kw rest
      | _ => searchYearExtreme kw rest
    else searchYearExtreme kw rest

/-- Take exactly `n` digits from the front. -/
def takeDigitsExact : ℕ → List Char → Option (List Char × List Char)
  | 0, cs => some ([], cs)
  | _ + 1, [] => none
  | n + 1, c :: cs =>
    if c.isDigit then
      match takeDigitsExact n cs with
      | some (d, r) => some (c :: d, r)
      | none => none
    else none

/-- One attempt of the phone pattern `0\d{n1}-\d{n2}-\d{4}` at the start of
`r` (after the literal `0`). -/
def phoneAttempt (n1 n2 : ℕ) (r : List Char) : Option (List Char × List Char) :=
  match takeDigitsExact n1 r with
  | some (d1, r1) =>
    match r1 with
    | '-' :: r2 =>
      match takeDigitsExact n2 r2 with
      | some (d2, r3) =>
        match r3 with
        | '-' :: r4 =>
          match takeDigitsExact 4 r4 with
          | some (d3, r5) => some ('0' :: d1 ++ '-' :: d2 ++ '-' :: d3, r5)
          | none => none
        | _ => none
      | none => none
    | _ => none
  | none => none

/-- Matching `0\d{1,2}-\d{3,4}-\d{4}` at the start of `cs` (greedy:
two then one leading digits, four then three middle digits). -/
def matchPhone : List Char → Option (List Char × List Char)
  | [] => none
  | c :: r =>
    if c = '0' then
      match phoneAttempt 2 4 r with
      | some m => some m
      | none =>
        match phoneAttempt 2 3 r with
        | some m => some m
        | none =>
          match phoneAttempt 1 4 r with
          | some m => some m
          | none => phoneAttempt 1 3 r
    else none

/-- `re.findall(r"(0\d{1,2}-\d{3,4}-\d{4})", body)`: leftmost,
non-overlapping matches.  The fuel starts at the text length, which bounds
the number of scanning steps (each step consumes at least one character). -/
def findPhonesAux : ℕ → List Char → List String
  | 0, _ => []
  | _ + 1, [] => []
  | fuel + 1, c :: rest =>
    match matchPhone (c :: rest) with
    | some (m, r) => String.mk m :: findPhonesAux fuel r
    | none => findPhonesAux fuel rest

def findPhones (cs : List Char) : List String :=
  findPhonesAux cs.length cs

/-- Python `body.splitlines()` restricted to `\n` separators (the page text
reaching this code uses `\n`; the subsequent strip-and-filter step erases the
remaining differences). -/
def splitNL : List Char → List (List Char)
  | [] => [[]]
  | '\n' :: rest => [] :: splitNL rest
  | c :: rest =>
    match splitNL rest with
    | l :: ls => (c :: l) :: ls
    | [] => [[c]]

/-- `[가-힣]`: precomposed Hangul syllables U+AC00 .. U+D7A3. -/
def isHangulSyllable (c : Char) : Bool :=
  0xAC00 ≤ c.toNat && c.toNat ≤ 0xD7A3

/-- `re.fullmatch(r"[가-힣]{2,4}", l)`. -/
def isKoreanNameToken (l : List Char) : Bool :=
  2 ≤ l.length && l.length ≤ 4 && l.all isHangulSyllable

/-- The stoplist `("이미지","상세보기","중개사","중개소")`. -/
def agentStoplist : List (List Char) :=
  ["이미지".toList, "상세보기".toList, "중개사".toList, "중개소".toList]

/-- The broker-name scan: first line that is a 2-4 character Hangul token not
in the stoplist whose context window `lines[max(0,i-3):i+2]` mentions a
broker keyword; returns the token and its index. -/
def findAgentAux (allLines : List (List Char)) :
    ℕ → List (List Char) → Option (List Char × ℕ)
  | _, [] => none
  | i, l :: rest =>
    if isKoreanNameToken l && !agentStoplist.contains l then
      let ctx := List.intercalate ['\n'] ((allLines.take (i + 2)).drop (i - 3))
      if containsSubL "중개사".toList ctx || containsSubL "프로필".toList ctx ||
          containsSubL "중개소".toList ctx then
        some (l, i)
      else findAgentAux allLines (i + 1) rest
    else findAgentAux allLines (i + 1) rest

/-- Office-line test: `office_pat.search(l)` (`공인중개사|부동산`) and the two
exclusion substrings. -/
def officeLineOk (l : List Char) : Bool :=
  (containsSubL "공인중개사".toList l || containsSubL "부동산".toList l) &&
  !containsSubL "상세보기".toList l && !containsSubL "전화".toList l

/-- `re.search(r"중개소\s+([^\n]+)", body)`: leftmost `중개소` followed by at
least one whitespace character; the group is the maximal non-newline run
after the greedy whitespace run, or (by backtracking into the run when the
text ends there) a single non-newline whitespace character. -/
def searchOfficeFallback : List Char → Option (List Char)
  | [] => none
  | c :: rest =>
    if listStartsWith "중개소".toList (c :: rest) then
      let after := (c :: rest).drop 3
      let ws := after.takeWhile pyIsSpace
      let afterWs := after.dropWhile pyIsSpace
      if ws.isEmpty then searchOfficeFallback rest
      else
        match afterWs with
        | _ :: _ => some (afterWs.takeWhile (fun ch => ch ≠ '\n'))
        | [] =>
          match ((ws.drop 1).reverse).dropWhile (fun ch => ch = '\n') with
          | w :: _ => some [w]
          | [] => searchOfficeFallback rest
    else searchOfficeFallback rest

/-- The record extracted by `scrape_article_detail` (a skip marker plus the
broker / lease-history fields; absent facts are `""` / `none`). -/
structure ExtraDict where
  skip : Bool
  office : String
  agent_name : String
  phone1 : String
  phone2 : String
  period_years : Option Int
  jeonse_max : Option Int
  jeonse_min : Option Int
  prev_jeonse : Option Int
deriving DecidableEq

/-- The `{"__skip__": True}` early-exit value. -/
def skipExtra : ExtraDict :=
  { skip := true, office := "", agent_name := "", phone1 := "", phone2 := "",
    period_years := none, jeonse_max := none, jeonse_min := none,
    prev_jeonse := none }

/-- The pure extraction performed on the final body text (broker name and
office, lease-period extremes, phone numbers); every step is a total pattern
search, so this part of `scrape_article_detail` cannot raise. -/
def extract_fields (body : String) (prev_jeonse : Option Int) : ExtraDict :=
  let cs := body.toList
  let lines := ((splitNL cs).map pyStripL).filter (fun l => !l.isEmpty)
  let found := findAgentAux lines 0 lines
  let agent_name : List Char := match found with | some (nm, _) => nm | none => []
  let office0 : List Char :=
    match found with
    | some (_, ci) =>
      match ((lines.drop (ci + 1)).take 5).find? officeLineOk with
      | some l => l
      | none => []
    | none => []
  let office : List Char :=
    if office0.isEmpty then
      match searchOfficeFallback cs with
      | some g =>
        let tmp := pyStripL g
        if containsSubL "이미지".toList tmp then [] else tmp
      | none => []
    else office0
  let mmax := searchYearExtreme "최고".toList cs
  let mmin := searchYearExtreme "최저".toList cs
  let period_years : Option Int :=
    match mmax with
    | some (y, _) => some (digitsToNat y : Int)
    | none =>
      match mmin with
      | some (y, _) => some (digitsToNat y : Int)
      | none => none
  let jeonse_max : Option Int :=
    match mmax with
    | some (_, g) => parse_kr_money_to_won (String.mk g)
    | none => none
  let jeonse_min : Option Int :=
    match mmin with
    | some (_, g) => parse_kr_money_to_won (String.mk g)
    | none => none
  let phones := findPhones cs
  { skip := false,
    office := String.mk office,
    agent_name := String.mk agent_name,
    phone1 := (phones.get? 0).getD "",
    phone2 := (phones.get? 1).getD "",
    period_years := period_years,
    jeonse_max := jeonse_max,
    jeonse_min := jeonse_min,
    prev_jeonse := prev_jeonse }

/-! ## `scrape_article_detail` and `fetch_one` as functions of an
effect-outcome environment

Each awaited browser operation of the source either returns a value or
raises; a `DetailEnv` fixes the outcome of every such operation for one
listing, and the embedded functions reproduce the `try`/`except` structure
of the source over it.  An uncaught exception is an `Except.error`. -/

/-- A raised Python/Playwright exception (identity of the exception is
irrelevant to the control flow being modelled). -/
inductive PyExn where
  | exn
deriving DecidableEq

/-- Outcomes of the awaited operations performed for one listing. -/
structure DetailEnv where
  /-- `detail_page.goto(info url)` outcome (not wrapped in any `try`). -/
  goto_info : Except PyExn Unit
  /-- after the first goto, is the page on `fin.land.naver.com`? -/
  redirect_info : Bool
  /-- the re-`goto` issued on that redirect (also unprotected). -/
  goto_info_retry : Except PyExn Unit
  /-- `inner_text("body")` after the info goto (its failure IS caught). -/
  inner_text1 : Except PyExn String
  /-- `goto(view url)` outcome for the not-found/short-body retry. -/
  goto_view : Except PyExn Unit
  redirect_view : Bool
  goto_view_retry : Except PyExn Unit
  inner_text2 : Except PyExn String
  /-- the tab-switch block (`실거래가`/`전세` clicks plus body re-read):
  `ok s` means it succeeded yielding body `s`; failure is caught. -/
  tab_switch : Except PyExn String

/-- The inner `_goto` helper: goto, then on a `fin.land.naver.com` redirect
goto the info URL again.  Neither call is protected by a `try`. -/
def gotoWithRedirect (g1 : Except PyExn Unit) (redirected : Bool)
    (retry : Except PyExn Unit) : Except PyExn Unit := do
  g1
  if redirected then retry else pure ()

/-- `try: body = inner_text except: body = ""`. -/
def textOr (r : Except PyExn String) : String :=
  match r with
  | .ok s => s
  | .error _ => ""

/-- The not-found marker looked for in the first body text. -/
def pageNotFoundMsg : String := "요청하신 페이지를 찾을 수 없어요"

/-- Python falsiness of `prev_jeonse` (`None` or `0`). -/
def optFalsy : Option Int → Bool
  | none => true
  | some n => n == 0

/-- The navigation-and-read phase of `scrape_article_detail`: goto the info
URL (redirect-recovering), read the body (read failures caught as `""`), and
on a not-found or near-empty body goto the view URL and re-read.  The `goto`
calls are outside every `try`, so their failures escape. -/
def scrape_body_txt (env : DetailEnv) : Except PyExn String := do
  gotoWithRedirect env.goto_info env.redirect_info env.goto_info_retry
  let body1 := textOr env.inner_text1
  if pyContains body1 pageNotFoundMsg || (pyStrip body1).length < 50 then do
    gotoWithRedirect env.goto_view env.redirect_view env.goto_view_retry
    pure (textOr env.inner_text2)
  else
    pure body1

/-- The remainder of `scrape_article_detail` once a body text is obtained:
previous-lease pre-check with early skip, best-effort tab switch (a caught
failure keeps the current body), then the pure field extraction. -/
def scrape_after_body (only_with_prev_jeonse : Bool) (env : DetailEnv)
    (body_txt : String) : ExtraDict :=
  let prev_jeonse_txt := grabPrevJeonse body_txt
  let prev_jeonse :=
    if prev_jeonse_txt ≠ "" then parse_kr_money_to_won prev_jeonse_txt else none
  if only_with_prev_jeonse && optFalsy prev_jeonse then
    skipExtra
  else
    let body2 :=
      match env.tab_switch with
      | .ok s => s
      | .error _ => body_txt
    extract_fields body2 prev_jeonse

/-- Embedding of `scrape_article_detail` (`realEstate.py` 335-450) over a
`DetailEnv`. -/
def scrape_article_detail (only_with_prev_jeonse : Bool) (env : DetailEnv) :
    Except PyExn ExtraDict := do
  let body_txt ← scrape_body_txt env
  pure (scrape_after_body only_with_prev_jeonse env body_txt)

/-! ## GapAnalyzer-side of `fetch_one`

Source: `realEstate.py` lines 812-869. -/

/-- The listing-summary fields read by `fetch_one`. -/
structure ArticleRec where
  articleName : String
  articleNo : String
  tradeTypeName : String
  dealOrWarrantPrc : String
  floorInfo : String
  area1 : String
  area2 : String
  direction : String
  articleFeatureDesc : String
  articleConfirmYmd : String
deriving DecidableEq

/-- One result row of `fetch_one` (the Candidate record). -/
structure CandidateRow where
  articleName : String
  articleNo : String
  tradeTypeName : String
  dealValueWon : Option Int
  floorInfo : String
  area1 : String
  area2 : String
  direction : String
  featureDesc : String
  confirmYmd : String
  office : String
  agent_name : String
  phone1 : String
  phone2 : String
  period_years : Option Int
  jeonse_max : Option Int
  jeonse_min : Option Int
  prev_jeonse : Option Int
  gapAmountWon : Option Int
  gapRatioVal : Option ℚ
deriving DecidableEq

/-- `re.sub(r'^\s*매매\s*', '', x).strip()`: drop one leading
whitespace-`매매`-whitespace prefix when present, then strip. -/
def strip_sale_tag (s : String) : String :=
  let cs := s.toList
  let ws := cs.dropWhile pyIsSpace
  let cs2 :=
    if listStartsWith "매매".toList ws then (ws.drop 2).dropWhile pyIsSpace
    else cs
  String.mk (pyStripL cs2)

/-- The pure tail of `fetch_one` after the detail scrape: skip test, the
`ONLY_PREV_GT_SALE` filter (`prev_j is None or deal is None or
prev_j < deal` drops the row), gap amount and gap ratio (float division
modelled over `ℚ`; a zero sale amount is falsy, giving `None`). -/
def fetch_one_core (only_prev_gt_sale : Bool) (a : ArticleRec)
    (deal_value_won : Option Int) (extra : ExtraDict) : Option CandidateRow :=
  if extra.skip then none
  else
    let prev_j := extra.prev_jeonse
    if only_prev_gt_sale &&
        (match prev_j, deal_value_won with
         | some p, some d => decide (p < d)
         | _, _ => true) then none
    else
      let gap_amount : Option Int :=
        match deal_value_won, prev_j with
        | some d, some p => some (d - p)
        | _, _ => none
      let gap_r : Option ℚ :=
        match gap_amount, deal_value_won with
        | some g, some d => if d ≠ 0 then some ((g : ℚ) / (d : ℚ)) else none
        | _, _ => none
      some
        { articleName := a.articleName, articleNo := a.articleNo,
          tradeTypeName := a.tradeTypeName, dealValueWon := deal_value_won,
          floorInfo := a.floorInfo, area1 := a.area1, area2 := a.area2,
          direction := a.direction, featureDesc := a.articleFeatureDesc,
          confirmYmd := a.articleConfirmYmd, office := extra.office,
          agent_name := extra.agent_name, phone1 := extra.phone1,
          phone2 := extra.phone2, period_years := extra.period_years,
          jeonse_max := extra.jeonse_max, jeonse_min := extra.jeonse_min,
          prev_jeonse := prev_j, gapAmountWon := gap_amount,
          gapRatioVal := gap_r }

/-- Embedding of `fetch_one`: parse the sale price, run the detail scrape
(whose uncaught failures propagate), then the pure filtering tail. -/
def fetch_one (only_with_prev_jeonse only_prev_gt_sale : Bool)
    (a : ArticleRec) (env : DetailEnv) : Except PyExn (Option CandidateRow) := do
  let deal_value_won := parse_kr_money_to_won (strip_sale_tag a.dealOrWarrantPrc)
  let extra ← scrape_article_detail only_with_prev_jeonse env
  pure (fetch_one_core only_prev_gt_sale a deal_value_won extra)

/-- `fetch_one` together with its pool interaction: `dp = await page_q.get()`
takes the queue head and the `try`/`finally` returns it with
`page_q.put(dp)` on the normal and on the exceptional exit alike. -/
def fetch_one_task (only_with_prev_jeonse only_prev_gt_sale : Bool)
    (a : ArticleRec) (env : DetailEnv) (dp : ℕ) (rest : List ℕ) :
    Except PyExn (Option CandidateRow) × List ℕ :=
  (fetch_one only_with_prev_jeonse only_prev_gt_sale a env, rest ++ [dp])

/-- A minimal listing record for concrete instances. -/
def aSample : ArticleRec :=
  { articleName := "A", articleNo := "1", tradeTypeName := "매매",
    dealOrWarrantPrc := "매매 3억", floorInfo := "", area1 := "", area2 := "",
    direction := "", articleFeatureDesc := "", articleConfirmYmd := "" }

/-- An extraction record with a given previous-lease amount. -/
def extraWithPrev (p : Int) : ExtraDict :=
  { skip := false, office := "", agent_name := "", phone1 := "", phone2 := "",
    period_years := none, jeonse_max := none, jeonse_min := none,
    prev_jeonse := some p }

/-- An environment in which the very first page navigation raises. -/
def envGotoFail : DetailEnv :=
  { goto_info := .error .exn, redirect_info := false,
    goto_info_retry := .ok (), inner_text1 := .ok "",
    goto_view := .ok (), redirect_view := false, goto_view_retry := .ok (),
    inner_text2 := .ok "", tab_switch := .ok "" }

/-- An environment in which every navigation succeeds (with empty bodies). -/
def envAllOk : DetailEnv :=
  { goto_info := .ok (), redirect_info := false,
    goto_info_retry := .ok (), inner_text1 := .ok "",
    goto_view := .ok (), redirect_view := false, goto_view_retry := .ok (),
    inner_text2 := .ok "", tab_switch := .ok "" }

/-! ## ResponseIngestor: JSON values and the session buffers

Source: `realEstate.py` lines 523-674 (`handle_response` and the buffers it
mutates, plus the module-level `complex_meta` store). -/

mutual
/-- A parsed JSON value (numbers restricted to integers, which is what the
ingested id/count fields hold). -/
inductive JVal where
  | null : JVal
  | jbool (b : Bool) : JVal
  | num (n : Int) : JVal
  | str (s : String) : JVal
  | arr (items : JArr) : JVal
  | obj (fields : JObj) : JVal

/-- A JSON array. -/
inductive JArr where
  | nil : JArr
  | cons (hd : JVal) (tl : JArr) : JArr

/-- A JSON object (insertion-ordered, unique keys as produced by a JSON
parser). -/
inductive JObj where
  | nil : JObj
  | cons (key : String) (val : JVal) (tl : JObj) : JObj
end

deriving instance DecidableEq for JVal, JArr, JObj

/-- Python `d.get(key)` (`None` for a missing key). -/
def JObj.get : JObj → String → JVal
  | .nil, _ => .null
  | .cons k v tl, key => if k = key then v else JObj.get tl key

/-- Python truthiness of a JSON value. -/
def JVal.truthy : JVal → Bool
  | .null => false
  | .jbool b => b
  | .num n => n != 0
  | .str s => s != ""
  | .arr .nil => false
  | .arr (.cons _ _) => true
  | .obj .nil => false
  | .obj (.cons _ _ _) => true

/-- Python `x or y` (first operand when truthy, else the second). -/
def jOr (x y : JVal) : JVal := if x.truthy then x else y

/-- Python `str(x)` for the values reaching `str()` in the source (ids are
strings or numbers; the container placeholders are nonempty so that
truthiness of the resulting id string is preserved). -/
def pyStr : JVal → String
  | .null => "None"
  | .jbool b => if b then "True" else "False"
  | .num n => toString n
  | .str s => s
  | .arr _ => "[...]"
  | .obj _ => "[obj]"

/-- Python `.upper()` — raises `AttributeError` on a non-string. -/
def pyUpper : JVal → Except PyExn String
  | .str s => .ok s.toUpper
  | _ => .error .exn

/-- Python `.strip()` — raises `AttributeError` on a non-string. -/
def pyStripVal : JVal → Except PyExn String
  | .str s => .ok (pyStrip s)
  | _ => .error .exn

/-- Python `isinstance(x, int)` (booleans count as ints) with the value. -/
def jAsInt : JVal → Option Int
  | .num n => some n
  | .jbool b => some (if b then 1 else 0)
  | _ => none

/-- The session buffers of one crawl (`complex_list`, `article_list`,
`trade_history`, the three seen-sets) plus the module-level `complex_meta`
store.  Python sets are modelled as insertion-ordered lists with
membership-guarded insertion; `complex_meta` maps an id to (name, count). -/
structure IngestState where
  complex_list : List JVal
  article_list : List JVal
  trade_history : List JVal
  seen_complex : List String
  seen_article : List JVal
  seen_trade : List (JVal × JVal × JVal × JVal)
  complex_meta : List (String × JVal × Int)
deriving DecidableEq

/-- Python dict lookup in `complex_meta`. -/
def lookupMeta : List (String × JVal × Int) → String → Option (JVal × Int)
  | [], _ => none
  | (k, v) :: tl, key => if k = key then some v else lookupMeta tl key

/-- Python dict write `complex_meta[key] = v` (in-place update or append). -/
def setMeta : List (String × JVal × Int) → String → JVal × Int →
    List (String × JVal × Int)
  | [], key, v => [(key, v)]
  | (k, w) :: tl, key, v =>
    if k = key then (k, v) :: tl else (k, w) :: setMeta tl key v

/-- `_is_villa_marker` (source lines 545-551); raises when a truthy
non-string reaches `.upper()` or the name containment test. -/
def is_villa_marker (it : JObj) : Except PyExn Bool := do
  let code ← pyUpper (jOr (it.get "realEstateTypeCode")
      (jOr (it.get "estateType") (jOr (it.get "rletTpCd") (.str ""))))
  if code ≠ "" then
    pure (code = "VL")
  else
    match jOr (it.get "realEstateTypeName")
        (jOr (it.get "estateTypeName") (jOr (it.get "rletTpNm") (.str ""))) with
    | .str name =>
      pure (pyContains name "빌라" || pyContains name "연립" ||
        pyContains name "다세대")
    | _ => .error .exn

/-- `_is_villa_article` (source lines 553-559). -/
def is_villa_article (a : JObj) : Except PyExn Bool := do
  let code ← pyUpper (jOr (a.get "realEstateTypeCode")
      (jOr (a.get "rletTpCd") (.str "")))
  if code ≠ "" then
    pure (code = "VL")
  else
    match jOr (a.get "realEstateTypeName") (jOr (a.get "rletTpNm") (.str "")) with
    | .str name =>
      pure (pyContains name "빌라" || pyContains name "연립" ||
        pyContains name "다세대")
    | _ => .error .exn

/-- One iteration of the marker-channel loop (source lines 566-584).  An
`error` result aborts the surrounding loop via the channel `except`, keeping
the state accumulated so far; every raise happens before this item's own
mutations, so the carried state is the input state. -/
def marker_item_step (housesUrl : Bool) (st : IngestState) (v : JVal) :
    Except IngestState IngestState :=
  match v with
  | .obj it =>
    match (if housesUrl then is_villa_marker it else .ok true) with
    | .error _ => .error st
    | .ok b =>
      if housesUrl && !b then .ok st
      else
        let cno := pyStr (jOr (it.get "markerId")
            (jOr (it.get "complexNo") (jOr (it.get "houseNo") (.str ""))))
        let name := jOr (it.get "complexName") (jOr (it.get "houseName") (.str ""))
        let cnt := jOr (it.get "articleCount") (jOr (it.get "dealCount")
            (jOr (it.get "totalCount") (jOr (it.get "cnt") (.num 0))))
        if cno = "" then .ok st
        else
          let st1 :=
            if st.seen_complex.contains cno then st
            else { st with seen_complex := st.seen_complex ++ [cno],
                           complex_list := st.complex_list ++ [v] }
          let m := (lookupMeta st1.complex_meta cno).getD (name, 0)
          let mname := if name.truthy then name else m.1
          let mcount :=
            match jAsInt cnt with
            | some n => if n > m.2 then n else m.2
            | none => m.2
          .ok { st1 with complex_meta := setMeta st1.complex_meta cno (mname, mcount) }
  | _ => .error st

/-- One iteration of the listing-list loop (source lines 606-621). -/
def article_item_step (houseUrl : Bool) (st : IngestState) (a : JVal) :
    Except IngestState IngestState :=
  match a with
  | .obj o =>
    match (if houseUrl then is_villa_article o else .ok true) with
    | .error _ => .error st
    | .ok b =>
      if houseUrl && !b then .ok st
      else
        match pyUpper (jOr (o.get "tradeType") (.str "")) with
        | .error _ => .error st
        | .ok tcode =>
          match pyStripVal (jOr (o.get "tradeTypeName") (.str "")) with
          | .error _ => .error st
          | .ok tname =>
            if tcode ≠ "A1" && tname ≠ "매매" && tname ≠ "SALE" then .ok st
            else
              let k := o.get "articleNo"
              if k.truthy && !st.seen_article.contains k then
                .ok { st with seen_article := st.seen_article ++ [k],
                              article_list := st.article_list ++ [a] }
              else .ok st
  | _ => .error st

/-- One iteration of the price-history loop (source lines 629-633),
deduplicating on the (dealDate, area, floor, dealPrice) tuple. -/
def trade_item_step (st : IngestState) (t : JVal) :
    Except IngestState IngestState :=
  match t with
  | .obj o =>
    let k := (o.get "dealDate", o.get "area", o.get "floor", o.get "dealPrice")
    if st.seen_trade.contains k then .ok st
    else .ok { st with seen_trade := st.seen_trade ++ [k],
                       trade_history := st.trade_history ++ [t] }
  | _ => .error st

/-- Run per-item steps over a JSON array, stopping at the first raised
exception (the channel `except` keeps the state mutated so far). -/
def foldItems (f : IngestState → JVal → Except IngestState IngestState) :
    IngestState → JArr → IngestState
  | st, .nil => st
  | st, .cons hd tl =>
    match f st hd with
    | .error s => s
    | .ok s => foldItems f s tl

/-- `re.search(r'/api/articles/(?:complex|house)/(\d+)', url)`. -/
def searchArticlesCno : List Char → Option String
  | [] => none
  | c :: rest =>
    match (if listStartsWith "/api/articles/complex/".toList (c :: rest) then
        (match ((c :: rest).drop 22).takeWhile Char.isDigit with
         | [] => none
         | ds => some ds)
      else none) with
    | some ds => some (String.mk ds)
    | none =>
      match (if listStartsWith "/api/articles/house/".toList (c :: rest) then
          (match ((c :: rest).drop 20).takeWhile Char.isDigit with
           | [] => none
           | ds => some ds)
        else none) with
      | some ds => some (String.mk ds)
      | none => searchArticlesCno rest

/-- The total-count metadata update at the head of the listing-list channel
(source lines 596-602): `setdefault` first; a type-confused `total > count`
comparison raises after it. -/
def meta_count_step (cnoFromUrl : Option String) (totalV : JVal)
    (st : IngestState) : Except IngestState IngestState :=
  match cnoFromUrl with
  | some cno =>
    if cno ≠ "" && totalV.truthy then
      let m := (lookupMeta st.complex_meta cno).getD (.str "", 0)
      let st1 := { st with complex_meta := setMeta st.complex_meta cno m }
      match jAsInt totalV with
      | some n =>
        .ok (if n > m.2 then
            { st1 with complex_meta := setMeta st1.complex_meta cno (m.1, n) }
          else st1)
      | none => .error st1
    else .ok st
  | none => .ok st

/-- The listing-list channel (source lines 589-622): the total-count meta
update, then the item loop over `articleList`/`articles` (a truthy non-list
there raises on iteration, mutating nothing further). -/
def process_articles (houseUrl : Bool) (cnoFromUrl : Option String)
    (st : IngestState) (body : Option JVal) : IngestState :=
  match body with
  | none => st
  | some data =>
    match data with
    | .obj dobj =>
      let totalV := jOr (dobj.get "totalCount") (jOr (dobj.get "count") (.num 0))
      match meta_count_step cnoFromUrl totalV st with
      | .error s => s
      | .ok st1 =>
        match jOr (dobj.get "articleList") (jOr (dobj.get "articles") (.arr .nil)) with
        | .arr items => foldItems (article_item_step houseUrl) st1 items
        | _ => st1
    | _ => st

/-- `isinstance(x, list)`, returning the array. -/
def jvalAsArr : JVal → Option JArr
  | .arr items => some items
  | _ => none

/-- `'articleList' in obj and isinstance(obj['articleList'], list)`,
returning the array. -/
def jobjFindArr : JObj → Option JArr
  | .nil => none
  | .cons k v tl => if k = "articleList" then jvalAsArr v else jobjFindArr tl

/-- Size fact: an array extracted from a value is structurally smaller. -/
def jvalAsArr_size : (v : JVal) → (items : JArr) →
    jvalAsArr v = some items → sizeOf items < sizeOf v
  | .arr its, items, h => by
    simp only [jvalAsArr, Option.some.injEq] at h
    subst h
    have hs : sizeOf (JVal.arr its) = 1 + sizeOf its := by simp
    omega
  | .null, _, h => absurd h (by simp [jvalAsArr])
  | .jbool _, _, h => absurd h (by simp [jvalAsArr])
  | .num _, _, h => absurd h (by simp [jvalAsArr])
  | .str _, _, h => absurd h (by simp [jvalAsArr])
  | .obj _, _, h => absurd h (by simp [jvalAsArr])

/-- Termination fact for the `articleList` shortcut of `collect_from`: the
found array is structurally smaller than the object. -/
def jobjFindArr_size : (o : JObj) → (items : JArr) →
    jobjFindArr o = some items → sizeOf items < sizeOf o
  | .nil, _, h => absurd h (by simp [jobjFindArr])
  | .cons k v tl, items, h => by
    have hs : sizeOf (JObj.cons k v tl) = 1 + sizeOf k + sizeOf v + sizeOf tl := by
      simp
    by_cases hk : k = "articleList"
    · rw [jobjFindArr, if_pos hk] at h
      have := jvalAsArr_size v items h
      omega
    · rw [jobjFindArr, if_neg hk] at h
      have := jobjFindArr_size tl items h
      omega

mutual
/-- `collect_from` of the generic fallback channel (source lines 644-667).
A dict whose `articleList` key holds a list recurses into exactly that
list; any other dict recurses into all its values; a list processes dict
items bearing a truthy `articleNo`/`atclNo` (trade-type filter, then
insert-if-new) and recurses into its non-dict items only.  A raise
propagates, keeping the state mutated so far. -/
def collect_from (st : IngestState) (v : JVal) :
    Except IngestState IngestState :=
  match v with
  | .obj o =>
    match h : jobjFindArr o with
    | some items => collectArr st items
    | none => collectVals st o
  | .arr items => collectArr st items
  | _ => .ok st
termination_by sizeOf v
decreasing_by
  all_goals simp_wf
  all_goals try simp only [JVal.obj.sizeOf_spec, JVal.arr.sizeOf_spec,
    JObj.cons.sizeOf_spec, JArr.cons.sizeOf_spec]
  all_goals first
    | (have h2 := jobjFindArr_size o items h; omega)
    | omega

/-- The `for v in obj.values()` recursion of `collect_from`. -/
def collectVals (st : IngestState) (o : JObj) :
    Except IngestState IngestState :=
  match o with
  | .nil => .ok st
  | .cons _ v tl =>
    match collect_from st v with
    | .error s => .error s
    | .ok s => collectVals s tl
termination_by sizeOf o
decreasing_by
  all_goals simp_wf
  all_goals try simp only [JVal.obj.sizeOf_spec, JVal.arr.sizeOf_spec,
    JObj.cons.sizeOf_spec, JArr.cons.sizeOf_spec]
  all_goals first
    | (have h2 := jobjFindArr_size o items h; omega)
    | omega

/-- The list branch of `collect_from`. -/
def collectArr (st : IngestState) (items : JArr) :
    Except IngestState IngestState :=
  match items with
  | .nil => .ok st
  | .cons (.obj o) tl =>
    let k := jOr (JObj.get o "articleNo") (JObj.get o "atclNo")
    if k.truthy then
      match pyUpper (jOr (JObj.get o "tradeType")
          (jOr (JObj.get o "tradTp") (.str ""))) with
      | .error _ => .error st
      | .ok tcode =>
        match pyStripVal (jOr (JObj.get o "tradeTypeName") (.str "")) with
        | .error _ => .error st
        | .ok tname =>
          if tcode ≠ "A1" && tname ≠ "매매" && tname ≠ "SALE" then
            collectArr st tl
          else
            let st' :=
              if st.seen_article.contains (jOr (JObj.get o "articleNo")
                  (JObj.get o "atclNo")) then st
              else { st with
                     seen_article := st.seen_article ++
                       [jOr (JObj.get o "articleNo") (JObj.get o "atclNo")],
                     article_list := st.article_list ++ [JVal.obj o] }
            collectArr st' tl
    else collectArr st tl
  | .cons it tl =>
    match collect_from st it with
    | .error s => .error s
    | .ok s => collectArr s tl
termination_by sizeOf items
decreasing_by
  all_goals simp_wf
  all_goals try simp only [JVal.obj.sizeOf_spec, JVal.arr.sizeOf_spec,
    JObj.cons.sizeOf_spec, JArr.cons.sizeOf_spec]
  all_goals first
    | (have h2 := jobjFindArr_size o items h; omega)
    | omega
end

/-- One intercepted network response: its URL and parsed JSON body (`none`
when `response.json()` itself raises inside the channel's `try`). -/
structure NetResponse where
  url : String
  body : Option JVal

/-- Embedding of `handle_response` (source lines 528-671): the capture-flag
gate, then URL dispatch into the marker, listing-list, price-history and
generic fallback channels. -/
def handle_response (capture : Bool) (st : IngestState) (resp : NetResponse) :
    IngestState :=
  if !capture then st
  else
    let url := resp.url
    if pyContains url "complexes/single-markers" ||
        pyContains url "houses/single-markers" then
      match resp.body with
      | some (.arr items) =>
        foldItems (marker_item_step (pyContains url "houses/single-markers"))
          st items
      | _ => st
    else if pyContains url "/api/articles/complex/" ||
        pyContains url "/api/articles/house/" then
      process_articles (pyContains url "/api/articles/house/")
        (searchArticlesCno url.toList) st resp.body
    else if pyContains url "/api/complexes/" && pyContains url "/prices" then
      match resp.body with
      | some (.arr items) => foldItems trade_item_step st items
      | _ => st
    else if pyContains url "/api/" then
      match resp.body with
      | some data =>
        match collect_from st data with
        | .error s => s
        | .ok s => s
      | none => st
    else st

/-! ## CollectionScheduler: the worker-pool step relation

Source: `realEstate.py` lines 518-521 (`page_q` filled with the `W` worker
tabs), 872 (`N` tasks created) and 828-832 (`get` / `try`-`finally`-`put`
inside `fetch_one`). -/

/-- The phases of one `fetch_one` task with respect to the pool: not yet
past `page_q.get()`, holding a tab, or finished (tab released by the
`finally` — on the normal and the exceptional exit alike). -/
inductive TaskPhase where
  | pending
  | holding
  | finished
deriving DecidableEq

/-- Scheduler state: the number of free tabs in `page_q` and the phase of
each of the `N` tasks. -/
structure SchedState where
  free : ℕ
  tasks : List TaskPhase
deriving DecidableEq

/-- How many tasks currently hold a pool resource. -/
def countHolding : List TaskPhase → ℕ
  | [] => 0
  | t :: tl => (if t = .holding then 1 else 0) + countHolding tl

/-- Initial configuration: `W` tabs queued, `N` tasks created. -/
def initSched (W N : ℕ) : SchedState :=
  { free := W, tasks := List.replicate N .pending }

/-- Interleaving steps: `await page_q.get()` completes only when a tab is
free; finishing (normally or exceptionally) runs the `finally` and returns
the tab to the queue.  `finished` has no outgoing transition, so a task
releases exactly once. -/
inductive SchedStep : SchedState → SchedState → Prop where
  | acquire (s : SchedState) (i f : ℕ)
      (hi : s.tasks[i]? = some .pending) (hf : s.free = f + 1) :
      SchedStep s { free := f, tasks := s.tasks.set i .holding }
  | finish (s : SchedState) (i : ℕ)
      (hi : s.tasks[i]? = some .holding) :
      SchedStep s { free := s.free + 1, tasks := s.tasks.set i .finished }

/-- States reachable from the initial configuration. -/
inductive SchedReach (W N : ℕ) : SchedState → Prop where
  | init : SchedReach W N (initSched W N)
  | step {s t : SchedState} : SchedReach W N s → SchedStep s t → SchedReach W N t

/-- A concrete reachable scheduler state for `W = 2`, `N = 3`: task 0 has
acquired a tab. -/
def schedSample : SchedState :=
  { free := 1, tasks := [TaskPhase.holding, TaskPhase.pending, TaskPhase.pending] }

/-- The merged outcome of a channel body: a raised exception is caught by
the channel `except`, keeping the state mutated so far. -/
def chanMerge (r : Except IngestState IngestState) : IngestState :=
  match r with
  | .ok s => s
  | .error s => s

/-- The per-item step outcome, exceptions merged. -/
def stepRes (f : IngestState → JVal → Except IngestState IngestState)
    (st : IngestState) (it : JVal) : IngestState :=
  chanMerge (f st it)

/-- The six session buffers (seen-sets and accumulation lists) — the
components claim C6 is about; `complex_meta` is deliberately excluded. -/
def slOf (s : IngestState) :
    List JVal × List JVal × List JVal × List String × List JVal ×
      List (JVal × JVal × JVal × JVal) :=
  (s.complex_list, s.article_list, s.trade_history, s.seen_complex,
   s.seen_article, s.seen_trade)

/-- Monotone evolution of the metadata store: every recorded id keeps an
entry and its count never decreases. -/
def MetaGE (s' s : IngestState) : Prop :=
  ∀ cno nm c, lookupMeta s.complex_meta cno = some (nm, c) →
    ∃ nm' c', lookupMeta s'.complex_meta cno = some (nm', c') ∧ c ≤ c'

/-- The frame of the generic fallback channel: `collect_from` only touches
`seen_article` (monotonically) and `article_list`; every other buffer and
the metadata store are untouched. -/
def CFrame (a b : IngestState) : Prop :=
  b.complex_list = a.complex_list ∧ b.trade_history = a.trade_history ∧
  b.seen_complex = a.seen_complex ∧ b.seen_trade = a.seen_trade ∧
  b.complex_meta = a.complex_meta ∧
  ∀ x, x ∈ a.seen_article → x ∈ b.seen_article

/-- A session state whose metadata store already records marker id "1"
with reportedCount 5. -/
def aMetaState : IngestState :=
  { complex_list := [], article_list := [], trade_history := [],
    seen_complex := [], seen_article := [], seen_trade := [],
    complex_meta := [("1", (JVal.str "A", 5))] }

/-- A marker-channel response re-reporting marker id "1" with count 9. -/
def aMarkerResp : NetResponse :=
  { url := "https://x/complexes/single-markers?y",
    body := some (.arr (.cons (.obj (.cons "markerId" (.str "1")
      (.cons "articleCount" (.num 9) .nil))) .nil)) }

-- ===================== THEOREMS =====================

/-- The Gudermannian inversion at the heart of the projection round trip:
`arctan (sinh (log ((1 + sin θ) / (1 - sin θ)) / 2)) = θ` for `θ` strictly
inside `(-π/2, π/2)`. -/
theorem arctan_sinh_half_log_ratio (θ : ℝ)
    (hθ1 : -(Real.pi / 2) < θ) (hθ2 : θ < Real.pi / 2) :
    Real.arctan (Real.sinh
        (Real.log ((1 + Real.sin θ) / (1 - Real.sin θ)) / 2)) = θ := by
  have hcosθ : (0 : ℝ) < Real.cos θ :=
    Real.cos_pos_of_mem_Ioo ⟨hθ1, hθ2⟩
  have hpyth := Real.sin_sq_add_cos_sq θ
  have hs1 : Real.sin θ < 1 := by nlinarith [mul_pos hcosθ hcosθ]
  have hs2 : -1 < Real.sin θ := by nlinarith [mul_pos hcosθ hcosθ]
  set s : ℝ := Real.sin θ with hsdef
  have h1s : (0 : ℝ) < 1 + s := by linarith
  have h2s : (0 : ℝ) < 1 - s := by linarith
  have hratio : (0 : ℝ) < (1 + s) / (1 - s) := by positivity
  set L : ℝ := Real.log ((1 + s) / (1 - s)) with hLdef
  set E : ℝ := Real.exp (L / 2) with hEdef
  have hE0 : (0 : ℝ) < E := Real.exp_pos _
  have hEne : E ≠ 0 := ne_of_gt hE0
  have hE2 : E ^ 2 = (1 + s) / (1 - s) := by
    rw [hEdef, pow_two, ← Real.exp_add]
    rw [show L / 2 + L / 2 = L by ring, hLdef]
    exact Real.exp_log hratio
  have hEs : E ^ 2 * (1 - s) = 1 + s := by
    rw [hE2]; field_simp
  have hsinh : Real.sinh (L / 2) = (E - E⁻¹) / 2 := by
    rw [Real.sinh_eq, hEdef, ← Real.exp_neg]
  have hcosh : Real.cosh (L / 2) = (E + E⁻¹) / 2 := by
    rw [Real.cosh_eq, hEdef, ← Real.exp_neg]
  have hsc : Real.sinh (L / 2) = s * Real.cosh (L / 2) := by
    rw [hsinh, hcosh]
    field_simp
    linear_combination hEs
  have hcc : Real.cosh (L / 2) * Real.cos θ = 1 := by
    have hid : Real.cosh (L / 2) ^ 2 - Real.sinh (L / 2) ^ 2 = 1 :=
      Real.cosh_sq_sub_sinh_sq (L / 2)
    have hch0 : (0 : ℝ) < Real.cosh (L / 2) := Real.cosh_pos _
    have hfac : (Real.cosh (L / 2) * Real.cos θ - 1) *
        (Real.cosh (L / 2) * Real.cos θ + 1) = 0 := by
      rw [hsc] at hid
      nlinarith [hid, hpyth]
    rcases mul_eq_zero.1 hfac with h | h
    · linarith
    · nlinarith [mul_pos (Real.cosh_pos (L / 2)) hcosθ]
  have htan : Real.sinh (L / 2) = Real.tan θ := by
    rw [Real.tan_eq_sin_div_cos, ← hsdef, hsc,
      eq_div_iff (ne_of_gt hcosθ), mul_assoc, hcc, mul_one]
  rw [htan]
  exact Real.arctan_tan hθ1 hθ2

/-- Exact round trip of the projection pair for latitudes strictly inside
(-85°, 85°): the Mercator inverse is exact over `ℝ`. -/
theorem pixel_ll_round_trip_exact (lat lon : ℝ) (z : ℕ)
    (h1 : -85 < lat) (h2 : lat < 85) :
    pixel_to_ll (ll_to_pixel lat lon z).1 (ll_to_pixel lat lon z).2 z =
      (lat, lon) := by
  have hπ : (0 : ℝ) < Real.pi := Real.pi_pos
  have hπne : Real.pi ≠ 0 := ne_of_gt hπ
  have hscale : (0 : ℝ) < 256 * 2 ^ z := by positivity
  have hsne : (256 * (2 : ℝ) ^ z) ≠ 0 := ne_of_gt hscale
  have hθ1 : -(Real.pi / 2) < lat * Real.pi / 180 := by nlinarith
  have hθ2 : lat * Real.pi / 180 < Real.pi / 2 := by nlinarith
  unfold pixel_to_ll ll_to_pixel
  simp only
  refine Prod.ext ?_ ?_
  · simp only
    have hn : Real.pi - 2 * Real.pi *
        ((1 / 2 - Real.log ((1 + Real.sin (lat * Real.pi / 180)) /
            (1 - Real.sin (lat * Real.pi / 180))) / (4 * Real.pi)) *
          (256 * 2 ^ z)) / (256 * 2 ^ z) =
        Real.log ((1 + Real.sin (lat * Real.pi / 180)) /
            (1 - Real.sin (lat * Real.pi / 180))) / 2 := by
      field_simp
      ring
    rw [hn, arctan_sinh_half_log_ratio (lat * Real.pi / 180) hθ1 hθ2]
    field_simp
  · simp only
    field_simp
    ring

/-- C5: for every latitude strictly inside (-85°, 85°), every longitude and
every integer zoom 0-20, `pixel_to_ll (ll_to_pixel lat lon z) z` reproduces
`(lat, lon)` to within 1e-6 degrees on each axis. -/
theorem C5_projection_round_trip (lat lon : ℝ) (z : ℕ)
    (h1 : -85 < lat) (h2 : lat < 85) (hz : z ≤ 20) :
    |(pixel_to_ll (ll_to_pixel lat lon z).1 (ll_to_pixel lat lon z).2 z).1 -
        lat| ≤ 1e-6 ∧
    |(pixel_to_ll (ll_to_pixel lat lon z).1 (ll_to_pixel lat lon z).2 z).2 -
        lon| ≤ 1e-6 := by
  have h := pixel_ll_round_trip_exact lat lon z h1 h2
  rw [h]
  norm_num

/-- C5 witness: the round-trip bound instantiated at latitude 37, longitude
127, zoom 15. -/
theorem C5_projection_round_trip_witness :
    (-85 : ℝ) < 37 ∧ (37 : ℝ) < 85 ∧ (15 : ℕ) ≤ 20 ∧
    (|(pixel_to_ll (ll_to_pixel 37 127 15).1 (ll_to_pixel 37 127 15).2 15).1 -
        37| ≤ 1e-6 ∧
     |(pixel_to_ll (ll_to_pixel 37 127 15).1 (ll_to_pixel 37 127 15).2 15).2 -
        127| ≤ 1e-6) :=
  ⟨by norm_num, by norm_num, by norm_num,
   C5_projection_round_trip 37 127 15 (by norm_num) (by norm_num) (by norm_num)⟩

theorem except_bind_ok {ε α β : Type} (a : α) (f : α → Except ε β) :
    (Except.ok a >>= f : Except ε β) = f a := rfl

theorem except_bind_error {ε α β : Type} (e : ε) (f : α → Except ε β) :
    (Except.error e >>= f : Except ε β) = Except.error e := rfl

/-- C1: the six literal currency-parsing cases of the spec hold on
`parse_kr_money_to_won`: "3억 8,000만원", "8,500", "7.5억", "320000000원",
"3억2천" and the empty string. -/
theorem C1_currency_literal_cases :
    parse_kr_money_to_won "3억 8,000만원" = some 380000000 ∧
    parse_kr_money_to_won "8,500" = some 85000000 ∧
    parse_kr_money_to_won "7.5억" = some 750000000 ∧
    parse_kr_money_to_won "320000000원" = some 320000000 ∧
    parse_kr_money_to_won "3억2천" = some 320000000 ∧
    parse_kr_money_to_won "" = none := by
  refine ⟨?_, ?_, ?_, ?_, ?_, ?_⟩ <;> decide

/-- C3 counterexample: the input `"abc"` has no eok, man or thousand
quantity and is not a bare integer after normalisation, yet
`parse_kr_money_to_won` returns `some 0` — not `none` as claimed. -/
theorem C3_counterexample :
    searchEokNum (moneyNormalize "abc") = none ∧
    searchDigitsThen '만' (moneyNormalize "abc") = none ∧
    searchDigitsThen '천' (moneyNormalize "abc") = none ∧
    (moneyNormalize "abc").all Char.isDigit = false ∧
    parse_kr_money_to_won "abc" = some 0 := by
  refine ⟨?_, ?_, ?_, ?_, ?_⟩ <;> decide

/-- C3 (amended): on every ASCII input — the scope on which the byte-level
model of `strip`, `\d` and `int` coincides with Python's Unicode semantics;
outside it Python also strips whitespace such as U+00A0 and `\d`/`int()`
accept non-ASCII decimal digits — whose normalised text contains no eok
quantity, no man quantity and no thousand quantity and is not a bare
integer, `parse_kr_money_to_won` returns the integer `0` (via the final
`return total + man * 10_000`) whenever the input is non-empty; `none` is
returned only for the empty input. -/
theorem C3_unparsable_returns_zero (s : String)
    (hascii : s.toList.all (fun c => c.toNat < 128) = true)
    (heok : searchEokNum (moneyNormalize s) = none)
    (hman : searchDigitsThen '만' (moneyNormalize s) = none)
    (hcheon : searchDigitsThen '천' (moneyNormalize s) = none)
    (hnum : ((moneyNormalize s).isEmpty ||
        !(moneyNormalize s).all Char.isDigit) = true) :
    parse_kr_money_to_won s = if s = "" then none else some 0 := by
  unfold parse_kr_money_to_won
  split
  · rfl
  · simp only [heok, hman, hcheon]
    rw [Bool.or_eq_true] at hnum
    rcases hnum with h | h
    · simp [h]
    · have h' : (moneyNormalize s).all Char.isDigit = false := by simpa using h
      simp [h']

/-- C3 witness: the amended statement applied at input `"abc"`. -/
theorem C3_unparsable_returns_zero_witness :
    parse_kr_money_to_won "abc" = if "abc" = "" then none else some 0 :=
  C3_unparsable_returns_zero "abc" (by decide) (by decide) (by decide)
    (by decide) (by decide)

/-- C2: with the standard filter on and both amounts parsed, a candidate
survives `fetch_one` iff the previous lease is at least the sale price; a
surviving row carries `gapAmount = sale - previousLease ≤ 0` and
`gapRatio = gapAmount / sale`; at sale 300,000,000 with previous lease
350,000,000 the row has gap -50,000,000 and ratio -1/6 (≈ -0.1667), while
previous lease 250,000,000 is excluded. -/
theorem C2_gap_filter_behavior :
    (∀ (a : ArticleRec) (e : ExtraDict) (d p : ℤ),
        e.skip = false → e.prev_jeonse = some p →
        ((fetch_one_core true a (some d) e).isSome ↔ d ≤ p)) ∧
    (∀ (a : ArticleRec) (e : ExtraDict) (d p : ℤ) (row : CandidateRow),
        e.skip = false → e.prev_jeonse = some p →
        fetch_one_core true a (some d) e = some row →
        row.gapAmountWon = some (d - p) ∧ d - p ≤ 0 ∧
        (d ≠ 0 → row.gapRatioVal = some (((d - p : ℤ) : ℚ) / (d : ℚ)))) ∧
    (∃ row, fetch_one_core true aSample (some 300000000)
          (extraWithPrev 350000000) = some row ∧
        row.gapAmountWon = some (-50000000) ∧
        row.gapRatioVal = some (-(1 / 6) : ℚ) ∧
        |(-(1 / 6) : ℚ) - (-(1667 / 10000))| ≤ 1 / 10000) ∧
    fetch_one_core true aSample (some 300000000) (extraWithPrev 250000000) =
      none := by
  refine ⟨?_, ?_, ?_, by decide⟩
  · intro a e d p hs hp
    simp only [fetch_one_core, hs, hp, Bool.false_eq_true, if_false,
      Bool.true_and]
    by_cases h : p < d <;> simp [h] <;> omega
  · intro a e d p row hs hp hrow
    simp only [fetch_one_core, hs, hp, Bool.false_eq_true, if_false,
      Bool.true_and] at hrow
    by_cases h : p < d
    · simp [h] at hrow
    · rw [if_neg (by simp [h])] at hrow
      injection hrow with hrow
      subst hrow
      refine ⟨rfl, by omega, fun hd => ?_⟩
      simp [hd]
  · refine ⟨_, rfl, by decide, ?_, by rw [abs_le]; constructor <;> norm_num⟩
    norm_num [fetch_one_core, aSample, extraWithPrev]

/-- C2 witness: the survive-iff characterisation applied at sale
300,000,000 and previous lease 350,000,000. -/
theorem C2_gap_filter_behavior_witness :
    (extraWithPrev 350000000).skip = false ∧
    (extraWithPrev 350000000).prev_jeonse = some 350000000 ∧
    ((fetch_one_core true aSample (some 300000000)
        (extraWithPrev 350000000)).isSome ↔
      (300000000 : ℤ) ≤ 350000000) :=
  ⟨rfl, rfl, C2_gap_filter_behavior.1 aSample (extraWithPrev 350000000)
    300000000 350000000 rfl rfl⟩

/-- C4 counterexample: a failing page navigation (`goto`) is NOT caught
inside the per-listing scope — `scrape_article_detail` and `fetch_one`
both propagate the exception (the claim says every per-listing failure,
including page-navigation failure, is caught locally). -/
theorem C4_counterexample :
    scrape_article_detail true envGotoFail = Except.error PyExn.exn ∧
    fetch_one true true aSample envGotoFail = Except.error PyExn.exn ∧
    (fetch_one_task true true aSample envGotoFail 0 []).1 =
      Except.error PyExn.exn := by
  refine ⟨rfl, rfl, rfl⟩

/-- C4 (amended): failures of the body reads, of the tab switch and of all
parsing are caught inside the listing's scope — whenever the (unprotected)
`goto` calls succeed, `scrape_article_detail` and `fetch_one` complete
normally with a skip or a record — and the pool resource is returned to the
queue on every exit path; but a `goto` failure itself propagates out of the
per-listing processing. -/
theorem C4_locally_caught_failures (o1 o2 : Bool) (a : ArticleRec)
    (env : DetailEnv)
    (h1 : env.goto_info = .ok ()) (h2 : env.goto_info_retry = .ok ())
    (h3 : env.goto_view = .ok ()) (h4 : env.goto_view_retry = .ok ()) :
    (∃ extra, scrape_article_detail o1 env = .ok extra) ∧
    (∃ r, fetch_one o1 o2 a env = .ok r) ∧
    (∀ dp rest, (fetch_one_task o1 o2 a env dp rest).2 = rest ++ [dp]) := by
  have hg1 : gotoWithRedirect env.goto_info env.redirect_info
      env.goto_info_retry = .ok () := by
    unfold gotoWithRedirect
    rw [h1, except_bind_ok]
    cases env.redirect_info
    · rfl
    · simpa using h2
  have hg2 : gotoWithRedirect env.goto_view env.redirect_view
      env.goto_view_retry = .ok () := by
    unfold gotoWithRedirect
    rw [h3, except_bind_ok]
    cases env.redirect_view
    · rfl
    · simpa using h4
  have hbody : ∃ b, scrape_body_txt env = .ok b := by
    unfold scrape_body_txt
    rw [hg1, except_bind_ok]
    dsimp only
    split
    · rw [hg2, except_bind_ok]
      exact ⟨_, rfl⟩
    · exact ⟨_, rfl⟩
  obtain ⟨b, hb⟩ := hbody
  have hsc : scrape_article_detail o1 env =
      .ok (scrape_after_body o1 env b) := by
    unfold scrape_article_detail
    rw [hb, except_bind_ok]
    rfl
  refine ⟨⟨_, hsc⟩,
    ⟨fetch_one_core o2 a
        (parse_kr_money_to_won (strip_sale_tag a.dealOrWarrantPrc))
        (scrape_after_body o1 env b), ?_⟩,
    fun dp rest => rfl⟩
  unfold fetch_one
  rw [hsc, except_bind_ok]
  rfl

/-- C4 witness: the amended statement applied at the all-successful
environment. -/
theorem C4_locally_caught_failures_witness :
    envAllOk.goto_info = .ok () ∧ envAllOk.goto_view = .ok () ∧
    ((∃ extra, scrape_article_detail true envAllOk = .ok extra) ∧
     (∃ r, fetch_one true true aSample envAllOk = .ok r) ∧
     (∀ dp rest, (fetch_one_task true true aSample envAllOk dp rest).2 =
        rest ++ [dp])) :=
  ⟨rfl, rfl,
    C4_locally_caught_failures true true aSample envAllOk rfl rfl rfl rfl⟩

/-- C8: `grid_sweep` generates points only on the top and bottom rows of each
ring: exactly 6 sample points for `rings = 1` and exactly 16 for `rings = 2`,
for every center, zoom and step. -/
theorem C8_grid_sweep_point_count (center_lat center_lon : ℝ) (zoom : ℕ)
    (step_px : ℝ) :
    (grid_sweep_coords center_lat center_lon zoom 1 step_px).length = 6 ∧
    (grid_sweep_coords center_lat center_lon zoom 2 step_px).length = 16 := by
  constructor <;>
    simp [grid_sweep_coords, List.range_succ]

/-- C10: while the capture flag is unset, handling any observed response
leaves the entire session state — every seen-set, every accumulation list
and the metadata store — unchanged. -/
theorem C10_capture_flag_gate (st : IngestState) (resp : NetResponse) :
    handle_response false st resp = st := by
  simp [handle_response]

theorem countHolding_set (ts : List TaskPhase) (i : ℕ) (a b : TaskPhase)
    (h : ts[i]? = some a) :
    countHolding (ts.set i b) + (if a = .holding then 1 else 0) =
      countHolding ts + (if b = .holding then 1 else 0) := by
  induction ts generalizing i with
  | nil => simp at h
  | cons t tl ih =>
    cases i with
    | zero =>
      simp only [List.getElem?_cons_zero, Option.some.injEq] at h
      subst h
      simp only [List.set, countHolding]
      omega
    | succ n =>
      simp only [List.getElem?_cons_succ] at h
      have hrec := ih n h
      simp only [List.set, countHolding]
      omega

theorem countHolding_replicate (n : ℕ) :
    countHolding (List.replicate n .pending) = 0 := by
  induction n with
  | zero => rfl
  | succ k ih => simpa [List.replicate_succ, countHolding] using ih

theorem countHolding_all_finished (ts : List TaskPhase)
    (h : ∀ t ∈ ts, t = .finished) : countHolding ts = 0 := by
  induction ts with
  | nil => rfl
  | cons t tl ih =>
    have ht := h t (by simp)
    have htl : countHolding tl = 0 := ih (fun x hx => h x (by simp [hx]))
    simp [countHolding, ht, htl]

/-- The inductive pool invariant: holding tasks and free tabs always sum to
the pool size, and the task count is stable. -/
theorem sched_invariant (W N : ℕ) (s : SchedState) (h : SchedReach W N s) :
    countHolding s.tasks + s.free = W ∧ s.tasks.length = N := by
  induction h with
  | init =>
    refine ⟨?_, ?_⟩
    · simp [initSched, countHolding_replicate]
    · simp [initSched]
  | step hr hstep ih =>
    obtain ⟨ih1, ih2⟩ := ih
    cases hstep with
    | acquire i f hi hf =>
      have hc := countHolding_set _ i .pending .holding hi
      rw [show (if TaskPhase.pending = TaskPhase.holding then (1:ℕ) else 0) = 0
          from rfl,
        show (if TaskPhase.holding = TaskPhase.holding then (1:ℕ) else 0) = 1
          from rfl] at hc
      refine ⟨?_, ?_⟩
      · dsimp only
        omega
      · simpa using ih2
    | finish i hi =>
      have hc := countHolding_set _ i .holding .finished hi
      rw [show (if TaskPhase.holding = TaskPhase.holding then (1:ℕ) else 0) = 1
          from rfl,
        show (if TaskPhase.finished = TaskPhase.holding then (1:ℕ) else 0) = 0
          from rfl] at hc
      refine ⟨?_, ?_⟩
      · dsimp only
        omega
      · simpa using ih2

/-- C9: in every reachable scheduler state at most `W` fetches hold a pool
resource (holding + free = `W` exactly), the task count stays `N`, when all
tasks have finished every one of the `W` tabs is back in the queue, and the
`try`/`finally` of `fetch_one` returns the acquired tab to the queue exactly
once on the normal and on the exceptional exit alike. -/
theorem C9_scheduler_bound (W N : ℕ) (s : SchedState)
    (h : SchedReach W N s) :
    countHolding s.tasks ≤ W ∧
    countHolding s.tasks + s.free = W ∧
    s.tasks.length = N ∧
    ((∀ t ∈ s.tasks, t = TaskPhase.finished) → s.free = W) ∧
    (∀ (o1 o2 : Bool) (a : ArticleRec) (env : DetailEnv) (dp : ℕ)
        (rest : List ℕ),
      (fetch_one_task o1 o2 a env dp rest).2 = rest ++ [dp]) := by
  obtain ⟨h1, h2⟩ := sched_invariant W N s h
  refine ⟨by omega, h1, h2, ?_, fun _ _ _ _ _ _ => rfl⟩
  intro hall
  have := countHolding_all_finished s.tasks hall
  omega

/-- C9 witness: the bound applied to the concrete reachable state where the
first of three tasks holds one of two tabs. -/
theorem C9_scheduler_bound_witness :
    countHolding schedSample.tasks ≤ 2 ∧
    countHolding schedSample.tasks + schedSample.free = 2 ∧
    schedSample.tasks.length = 3 ∧
    ((∀ t ∈ schedSample.tasks, t = TaskPhase.finished) →
      schedSample.free = 2) ∧
    (∀ (o1 o2 : Bool) (a : ArticleRec) (env : DetailEnv) (dp : ℕ)
        (rest : List ℕ),
      (fetch_one_task o1 o2 a env dp rest).2 = rest ++ [dp]) :=
  C9_scheduler_bound 2 3 schedSample
    (SchedReach.step SchedReach.init
      (SchedStep.acquire (initSched 2 3) 0 1 rfl rfl))

theorem foldItems_mono {κ : Type}
    (f : IngestState → JVal → Except IngestState IngestState)
    (sel : IngestState → List κ)
    (hA : ∀ st it s, f st it = .error s → s = st)
    (hC : ∀ st it x, x ∈ sel st → x ∈ sel (stepRes f st it)) :
    ∀ (l : JArr) (st : IngestState) (x : κ),
      x ∈ sel st → x ∈ sel (foldItems f st l)
  | .nil, _, _, hx => hx
  | .cons it tl, st, x, hx => by
    unfold foldItems
    cases hf : f st it with
    | error s =>
      rw [hA st it s hf]
      exact hx
    | ok s =>
      refine foldItems_mono f sel hA hC tl s x ?_
      have hs := hC st it x hx
      simpa [stepRes, chanMerge, hf] using hs

theorem foldItems_idem {κ α : Type}
    (f : IngestState → JVal → Except IngestState IngestState)
    (sel : IngestState → List κ) (out : IngestState → α)
    (hA : ∀ st it s, f st it = .error s → s = st)
    (hB : ∀ st st' it, (f st it).isOk = (f st' it).isOk)
    (hC : ∀ st it x, x ∈ sel st → x ∈ sel (stepRes f st it))
    (hD : ∀ st t it, (∀ x, x ∈ sel (stepRes f st it) → x ∈ sel t) →
        out (stepRes f t it) = out t)
    (hE : ∀ a b, out a = out b → sel a = sel b) :
    ∀ (l : JArr) (st t : IngestState),
      (∀ x, x ∈ sel (foldItems f st l) → x ∈ sel t) →
      out (foldItems f t l) = out t
  | .nil, _, _, _ => rfl
  | .cons it tl, st, t, hcov => by
    rw [foldItems] at hcov
    rw [foldItems]
    cases hft : f t it with
    | error s =>
      rw [hA t it s hft]
    | ok s =>
      cases hfs : f st it with
      | error s0 =>
        exfalso
        have hb := hB st t it
        rw [hfs, hft] at hb
        simp [Except.isOk, Except.toBool] at hb
      | ok s1 =>
        rw [hfs] at hcov
        have hcov1 : ∀ x, x ∈ sel (stepRes f st it) → x ∈ sel t := by
          intro x hx
          refine hcov x (foldItems_mono f sel hA hC tl s1 x ?_)
          simpa [stepRes, chanMerge, hfs] using hx
        have hstep : out (stepRes f t it) = out t := hD st t it hcov1
        have hsel : sel (stepRes f t it) = sel t := hE _ _ hstep
        have hs_eq : stepRes f t it = s := by simp [stepRes, chanMerge, hft]
        have hrec := foldItems_idem f sel out hA hB hC hD hE tl s1
          (stepRes f t it) (fun x hx => hsel ▸ hcov x hx)
        rw [hs_eq] at hrec
        rw [hrec, ← hs_eq]
        exact hstep

theorem marker_step_error_eq (hu : Bool) (st : IngestState) (it : JVal)
    (s : IngestState) (h : marker_item_step hu st it = .error s) : s = st := by
  unfold marker_item_step at h
  dsimp only at h
  repeat' split at h
  all_goals try exact Except.noConfusion h
  all_goals injection h with h
  all_goals exact h.symm

theorem marker_step_ok_shape (hu : Bool) (st : IngestState) (it : JVal)
    (s : IngestState) (h : marker_item_step hu st it = .ok s) :
    (s.seen_complex = st.seen_complex ∨
      ∃ c, s.seen_complex = st.seen_complex ++ [c]) ∧
    s.article_list = st.article_list ∧
    s.trade_history = st.trade_history ∧
    s.seen_article = st.seen_article ∧
    s.seen_trade = st.seen_trade := by
  unfold marker_item_step at h
  dsimp only at h
  repeat' split at h
  all_goals try exact Except.noConfusion h
  all_goals injection h with h
  all_goals subst h
  all_goals first
    | exact ⟨Or.inl rfl, rfl, rfl, rfl, rfl⟩
    | exact ⟨Or.inr ⟨_, rfl⟩, rfl, rfl, rfl, rfl⟩

theorem marker_step_isOk (hu : Bool) (st st' : IngestState) (it : JVal) :
    (marker_item_step hu st it).isOk = (marker_item_step hu st' it).isOk := by
  rcases it with _ | b0 | n | sv | items | o
  any_goals rfl
  cases hv : (if hu then is_villa_marker o else Except.ok true) with
  | error e =>
    have herr : ∀ t : IngestState,
        marker_item_step hu t (JVal.obj o) = .error t := by
      intro t
      unfold marker_item_step
      simp [hv]
    rw [herr st, herr st']
    rfl
  | ok b =>
    have hok : ∀ t : IngestState,
        (marker_item_step hu t (JVal.obj o)).isOk = true := by
      intro t
      unfold marker_item_step
      simp only [hv]
      repeat' first | split | dsimp only
      all_goals rfl
    rw [hok st, hok st']

theorem marker_step_mono (hu : Bool) (st : IngestState) (it : JVal) (x : String)
    (hx : x ∈ st.seen_complex) :
    x ∈ (stepRes (marker_item_step hu) st it).seen_complex := by
  unfold stepRes chanMerge
  cases hstep : marker_item_step hu st it with
  | error s => rw [marker_step_error_eq hu st it s hstep]; exact hx
  | ok s =>
    rcases (marker_step_ok_shape hu st it s hstep).1 with h | ⟨c, h⟩
    · rw [h]; exact hx
    · rw [h]; exact List.mem_append_left _ hx

theorem marker_step_covered (hu : Bool) (st t : IngestState) (it : JVal)
    (hcov : ∀ x, x ∈ (stepRes (marker_item_step hu) st it).seen_complex →
      x ∈ t.seen_complex) :
    slOf (stepRes (marker_item_step hu) t it) = slOf t := by
  rcases it with _ | b0 | n | sv | items | o
  any_goals rfl
  cases hv : (if hu then is_villa_marker o else Except.ok true) with
  | error e =>
    have herr : marker_item_step hu t (JVal.obj o) = .error t := by
      unfold marker_item_step
      simp [hv]
    simp [stepRes, chanMerge, herr]
  | ok b =>
    by_cases hb : (hu && !b) = true
    · have ht : marker_item_step hu t (JVal.obj o) = .ok t := by
        unfold marker_item_step
        simp [hv, hb]
      simp [stepRes, chanMerge, ht]
    · set cno := pyStr (jOr (JObj.get o "markerId") (jOr (JObj.get o "complexNo")
        (jOr (JObj.get o "houseNo") (JVal.str "")))) with hcno
      by_cases hc0 : cno = ""
      · have ht : marker_item_step hu t (JVal.obj o) = .ok t := by
          unfold marker_item_step
          simp only [hv, ← hcno]
          rw [if_neg hb, if_pos hc0]
        simp [stepRes, chanMerge, ht]
      · have hmem : ∀ u : IngestState,
            cno ∈ (stepRes (marker_item_step hu) u (JVal.obj o)).seen_complex := by
          intro u
          unfold stepRes chanMerge marker_item_step
          simp only [hv, ← hcno]
          rw [if_neg hb, if_neg hc0]
          dsimp only
          by_cases hcu : u.seen_complex.contains cno = true
          · rw [if_pos hcu]
            exact List.elem_iff.mp hcu
          · rw [if_neg hcu]
            simp
        have hct : t.seen_complex.contains cno = true :=
          List.elem_iff.mpr (hcov cno (hmem st))
        unfold stepRes chanMerge marker_item_step
        simp only [hv, ← hcno]
        rw [if_neg hb, if_neg hc0]
        dsimp only
        rw [if_pos hct]
        simp [slOf]

theorem article_step_error_eq (hu : Bool) (st : IngestState) (it : JVal)
    (s : IngestState) (h : article_item_step hu st it = .error s) : s = st := by
  unfold article_item_step at h
  dsimp only at h
  repeat' split at h
  all_goals try exact Except.noConfusion h
  all_goals injection h with h
  all_goals exact h.symm

theorem article_step_ok_shape (hu : Bool) (st : IngestState) (it : JVal)
    (s : IngestState) (h : article_item_step hu st it = .ok s) :
    (s.seen_article = st.seen_article ∨
      ∃ c, s.seen_article = st.seen_article ++ [c]) ∧
    s.complex_list = st.complex_list ∧
    s.trade_history = st.trade_history ∧
    s.seen_complex = st.seen_complex ∧
    s.seen_trade = st.seen_trade ∧
    s.complex_meta = st.complex_meta := by
  unfold article_item_step at h
  dsimp only at h
  repeat' split at h
  all_goals try exact Except.noConfusion h
  all_goals injection h with h
  all_goals subst h
  all_goals first
    | exact ⟨Or.inl rfl, rfl, rfl, rfl, rfl, rfl⟩
    | exact ⟨Or.inr ⟨_, rfl⟩, rfl, rfl, rfl, rfl, rfl⟩

theorem article_step_isOk (hu : Bool) (st st' : IngestState) (it : JVal) :
    (article_item_step hu st it).isOk = (article_item_step hu st' it).isOk := by
  rcases it with _ | b0 | n | sv | items | o
  any_goals rfl
  cases hv : (if hu then is_villa_article o else Except.ok true) with
  | error e =>
    have herr : ∀ t : IngestState,
        article_item_step hu t (JVal.obj o) = .error t := by
      intro t
      unfold article_item_step
      simp [hv]
    rw [herr st, herr st']
    rfl
  | ok b =>
    by_cases hb : (hu && !b) = true
    · have ht : ∀ t : IngestState,
          article_item_step hu t (JVal.obj o) = .ok t := by
        intro t
        unfold article_item_step
        simp [hv, hb]
      rw [ht st, ht st']
      rfl
    · cases hup : pyUpper (jOr (JObj.get o "tradeType") (.str "")) with
      | error e =>
        have herr : ∀ t : IngestState,
            article_item_step hu t (JVal.obj o) = .error t := by
          intro t
          unfold article_item_step
          simp [hv, hb, hup]
        rw [herr st, herr st']
        rfl
      | ok tcode =>
        cases hstp : pyStripVal (jOr (JObj.get o "tradeTypeName") (.str "")) with
        | error e =>
          have herr : ∀ t : IngestState,
              article_item_step hu t (JVal.obj o) = .error t := by
            intro t
            unfold article_item_step
            simp [hv, hb, hup, hstp]
          rw [herr st, herr st']
          rfl
        | ok tname =>
          have hok : ∀ t : IngestState,
              (article_item_step hu t (JVal.obj o)).isOk = true := by
            intro t
            unfold article_item_step
            simp only [hv, hup, hstp]
            repeat' first | split | dsimp only
            all_goals rfl
          rw [hok st, hok st']

theorem article_step_mono (hu : Bool) (st : IngestState) (it : JVal) (x : JVal)
    (hx : x ∈ st.seen_article) :
    x ∈ (stepRes (article_item_step hu) st it).seen_article := by
  unfold stepRes chanMerge
  cases hstep : article_item_step hu st it with
  | error s => rw [article_step_error_eq hu st it s hstep]; exact hx
  | ok s =>
    rcases (article_step_ok_shape hu st it s hstep).1 with h | ⟨c, h⟩
    · rw [h]; exact hx
    · rw [h]; exact List.mem_append_left _ hx

theorem article_step_covered (hu : Bool) (st t : IngestState) (it : JVal)
    (hcov : ∀ x, x ∈ (stepRes (article_item_step hu) st it).seen_article →
      x ∈ t.seen_article) :
    slOf (stepRes (article_item_step hu) t it) = slOf t := by
  rcases it with _ | b0 | n | sv | items | o
  any_goals rfl
  cases hv : (if hu then is_villa_article o else Except.ok true) with
  | error e =>
    have herr : article_item_step hu t (JVal.obj o) = .error t := by
      unfold article_item_step
      simp [hv]
    simp [stepRes, chanMerge, herr]
  | ok b =>
    by_cases hb : (hu && !b) = true
    · have ht : article_item_step hu t (JVal.obj o) = .ok t := by
        unfold article_item_step
        simp [hv, hb]
      simp [stepRes, chanMerge, ht]
    · cases hup : pyUpper (jOr (JObj.get o "tradeType") (.str "")) with
      | error e =>
        have herr : article_item_step hu t (JVal.obj o) = .error t := by
          unfold article_item_step
          simp [hv, hb, hup]
        simp [stepRes, chanMerge, herr]
      | ok tcode =>
        cases hstp : pyStripVal (jOr (JObj.get o "tradeTypeName") (.str "")) with
        | error e =>
          have herr : article_item_step hu t (JVal.obj o) = .error t := by
            unfold article_item_step
            simp [hv, hb, hup, hstp]
          simp [stepRes, chanMerge, herr]
        | ok tname =>
          by_cases hfl : (tcode ≠ "A1" && tname ≠ "매매" && tname ≠ "SALE") = true
          · have ht : article_item_step hu t (JVal.obj o) = .ok t := by
              unfold article_item_step
              simp only [hv, hup, hstp]
              rw [if_neg hb, if_pos hfl]
            simp [stepRes, chanMerge, ht]
          · set k := JObj.get o "articleNo" with hk
            by_cases hkt : k.truthy = true
            · have hmem : ∀ u : IngestState,
                  k ∈ (stepRes (article_item_step hu) u (JVal.obj o)).seen_article := by
                intro u
                unfold stepRes chanMerge article_item_step
                simp only [hv, hup, hstp, ← hk]
                rw [if_neg hb, if_neg hfl]
                by_cases hcu : u.seen_article.contains k = true
                · rw [if_neg (by simp [hkt, hcu]; exact List.elem_iff.mp hcu)]
                  exact List.elem_iff.mp hcu
                · have hside : (JVal.truthy k && !u.seen_article.contains k) = true := by
                    simp [hkt, hcu]
                    exact fun hm => hcu (List.elem_iff.mpr hm)
                  rw [if_pos hside]
                  simp
              have hct : t.seen_article.contains k = true :=
                List.elem_iff.mpr (hcov k (hmem st))
              have ht : article_item_step hu t (JVal.obj o) = .ok t := by
                unfold article_item_step
                simp only [hv, hup, hstp, ← hk]
                rw [if_neg hb, if_neg hfl,
                  if_neg (by simp [hct]; exact fun _ => List.elem_iff.mp hct)]
              simp [stepRes, chanMerge, ht]
            · have ht : article_item_step hu t (JVal.obj o) = .ok t := by
                unfold article_item_step
                simp only [hv, hup, hstp, ← hk]
                rw [if_neg hb, if_neg hfl, if_neg (by simp [hkt])]
              simp [stepRes, chanMerge, ht]

theorem trade_step_error_eq (st : IngestState) (it : JVal)
    (s : IngestState) (h : trade_item_step st it = .error s) : s = st := by
  unfold trade_item_step at h
  dsimp only at h
  repeat' split at h
  all_goals try exact Except.noConfusion h
  all_goals injection h with h
  all_goals exact h.symm

theorem trade_step_ok_shape (st : IngestState) (it : JVal)
    (s : IngestState) (h : trade_item_step st it = .ok s) :
    (s.seen_trade = st.seen_trade ∨
      ∃ c, s.seen_trade = st.seen_trade ++ [c]) ∧
    s.complex_list = st.complex_list ∧
    s.article_list = st.article_list ∧
    s.seen_complex = st.seen_complex ∧
    s.seen_article = st.seen_article ∧
    s.complex_meta = st.complex_meta := by
  unfold trade_item_step at h
  dsimp only at h
  repeat' split at h
  all_goals try exact Except.noConfusion h
  all_goals injection h with h
  all_goals subst h
  all_goals first
    | exact ⟨Or.inl rfl, rfl, rfl, rfl, rfl, rfl⟩
    | exact ⟨Or.inr ⟨_, rfl⟩, rfl, rfl, rfl, rfl, rfl⟩

theorem trade_step_isOk (st st' : IngestState) (it : JVal) :
    (trade_item_step st it).isOk = (trade_item_step st' it).isOk := by
  rcases it with _ | b0 | n | sv | items | o
  any_goals rfl
  have hok : ∀ t : IngestState, (trade_item_step t (JVal.obj o)).isOk = true := by
    intro t
    unfold trade_item_step
    repeat' first | split | dsimp only
    all_goals rfl
  rw [hok st, hok st']

theorem trade_step_mono (st : IngestState) (it : JVal)
    (x : JVal × JVal × JVal × JVal) (hx : x ∈ st.seen_trade) :
    x ∈ (stepRes trade_item_step st it).seen_trade := by
  unfold stepRes chanMerge
  cases hstep : trade_item_step st it with
  | error s => rw [trade_step_error_eq st it s hstep]; exact hx
  | ok s =>
    rcases (trade_step_ok_shape st it s hstep).1 with h | ⟨c, h⟩
    · rw [h]; exact hx
    · rw [h]; exact List.mem_append_left _ hx

theorem trade_step_covered (st t : IngestState) (it : JVal)
    (hcov : ∀ x, x ∈ (stepRes trade_item_step st it).seen_trade →
      x ∈ t.seen_trade) :
    slOf (stepRes trade_item_step t it) = slOf t := by
  rcases it with _ | b0 | n | sv | items | o
  any_goals rfl
  set k := (JObj.get o "dealDate", JObj.get o "area", JObj.get o "floor",
    JObj.get o "dealPrice") with hk
  have hmem : ∀ u : IngestState,
      k ∈ (stepRes trade_item_step u (JVal.obj o)).seen_trade := by
    intro u
    unfold stepRes chanMerge trade_item_step
    simp only [← hk]
    by_cases hcu : u.seen_trade.contains k = true
    · rw [if_pos hcu]
      exact List.elem_iff.mp hcu
    · rw [if_neg hcu]
      simp
  have hct : t.seen_trade.contains k = true :=
    List.elem_iff.mpr (hcov k (hmem st))
  have ht : trade_item_step t (JVal.obj o) = .ok t := by
    unfold trade_item_step
    simp only [← hk]
    rw [if_pos hct]
  simp [stepRes, chanMerge, ht]

theorem marker_fold_idem (hu : Bool) (l : JArr) (st t : IngestState)
    (hcov : ∀ x, x ∈ (foldItems (marker_item_step hu) st l).seen_complex →
      x ∈ t.seen_complex) :
    slOf (foldItems (marker_item_step hu) t l) = slOf t :=
  foldItems_idem (marker_item_step hu) (fun s => s.seen_complex) slOf
    (marker_step_error_eq hu)
    (fun a b it => marker_step_isOk hu a b it)
    (fun a it x hx => marker_step_mono hu a it x hx)
    (fun a b it h => marker_step_covered hu a b it h)
    (fun a b h => congrArg (fun z => z.2.2.2.1) h)
    l st t hcov

theorem article_fold_idem (hu : Bool) (l : JArr) (st t : IngestState)
    (hcov : ∀ x, x ∈ (foldItems (article_item_step hu) st l).seen_article →
      x ∈ t.seen_article) :
    slOf (foldItems (article_item_step hu) t l) = slOf t :=
  foldItems_idem (article_item_step hu) (fun s => s.seen_article) slOf
    (article_step_error_eq hu)
    (fun a b it => article_step_isOk hu a b it)
    (fun a it x hx => article_step_mono hu a it x hx)
    (fun a b it h => article_step_covered hu a b it h)
    (fun a b h => congrArg (fun z => z.2.2.2.2.1) h)
    l st t hcov

theorem trade_fold_idem (l : JArr) (st t : IngestState)
    (hcov : ∀ x, x ∈ (foldItems trade_item_step st l).seen_trade →
      x ∈ t.seen_trade) :
    slOf (foldItems trade_item_step t l) = slOf t :=
  foldItems_idem trade_item_step (fun s => s.seen_trade) slOf
    trade_step_error_eq
    (fun a b it => trade_step_isOk a b it)
    (fun a it x hx => trade_step_mono a it x hx)
    (fun a b it h => trade_step_covered a b it h)
    (fun a b h => congrArg (fun z => z.2.2.2.2.2) h)
    l st t hcov

theorem cframe_refl (a : IngestState) : CFrame a a :=
  ⟨rfl, rfl, rfl, rfl, rfl, fun _ h => h⟩

theorem cframe_trans {a b c : IngestState} (h1 : CFrame a b) (h2 : CFrame b c) :
    CFrame a c :=
  ⟨h2.1.trans h1.1, h2.2.1.trans h1.2.1, h2.2.2.1.trans h1.2.2.1,
   h2.2.2.2.1.trans h1.2.2.2.1, h2.2.2.2.2.1.trans h1.2.2.2.2.1,
   fun x hx => h2.2.2.2.2.2 x (h1.2.2.2.2.2 x hx)⟩

mutual

theorem collect_from_frame : ∀ (st : IngestState) (v : JVal),
    CFrame st (chanMerge (collect_from st v))
  | st, .obj o => by
    rw [collect_from]
    split
    next items h =>
      have hlt : sizeOf items < 1 + sizeOf o := by
        have h2 := jobjFindArr_size o items h
        omega
      exact collectArr_frame st items
    next h => exact collectVals_frame st o
  | st, .arr items => by
    rw [collect_from]
    exact collectArr_frame st items
  | st, .null => by
    rw [collect_from]
    all_goals try exact cframe_refl st
    all_goals intro x h
    all_goals exact JVal.noConfusion h
  | st, .jbool b => by
    rw [collect_from]
    all_goals try exact cframe_refl st
    all_goals intro x h
    all_goals exact JVal.noConfusion h
  | st, .num n => by
    rw [collect_from]
    all_goals try exact cframe_refl st
    all_goals intro x h
    all_goals exact JVal.noConfusion h
  | st, .str sv => by
    rw [collect_from]
    all_goals try exact cframe_refl st
    all_goals intro x h
    all_goals exact JVal.noConfusion h
termination_by st v => sizeOf v
decreasing_by
  all_goals simp_wf
  all_goals try simp only [JVal.obj.sizeOf_spec, JVal.arr.sizeOf_spec,
    JObj.cons.sizeOf_spec, JArr.cons.sizeOf_spec]
  all_goals first
    | (rename_i its hh; have h2 := jobjFindArr_size o its hh; omega)
    | omega

theorem collectVals_frame : ∀ (st : IngestState) (o : JObj),
    CFrame st (chanMerge (collectVals st o))
  | st, .nil => by rw [collectVals]; exact cframe_refl st
  | st, .cons k v tl => by
    rw [collectVals]
    cases hcf : collect_from st v with
    | error s =>
      have h1 := collect_from_frame st v
      rw [hcf] at h1
      exact h1
    | ok s =>
      have h1 := collect_from_frame st v
      rw [hcf] at h1
      exact cframe_trans h1 (collectVals_frame s tl)
termination_by st o => sizeOf o
decreasing_by
  all_goals simp_wf
  all_goals try simp only [JVal.obj.sizeOf_spec, JVal.arr.sizeOf_spec,
    JObj.cons.sizeOf_spec, JArr.cons.sizeOf_spec]
  all_goals omega

theorem collectArr_frame : ∀ (st : IngestState) (items : JArr),
    CFrame st (chanMerge (collectArr st items))
  | st, .nil => by rw [collectArr]; exact cframe_refl st
  | st, .cons (.obj o) tl => by
    rw [collectArr]
    dsimp only
    split
    · split
      · exact cframe_refl st
      · split
        · exact cframe_refl st
        · split
          · exact collectArr_frame st tl
          · split
            next hct => exact collectArr_frame st tl
            next hct =>
              refine cframe_trans ?_ (collectArr_frame _ tl)
              exact ⟨rfl, rfl, rfl, rfl, rfl,
                fun x hx => List.mem_append_left _ hx⟩
    · exact collectArr_frame st tl
  | st, .cons .null tl => by
    rw [collectArr]
    · cases hcf : collect_from st JVal.null with
      | error s =>
        have h1 := collect_from_frame st JVal.null
        rw [hcf] at h1
        exact h1
      | ok s =>
        have h1 := collect_from_frame st JVal.null
        rw [hcf] at h1
        exact cframe_trans h1 (collectArr_frame s tl)
    · intro o h
      exact JVal.noConfusion h
  | st, .cons (.jbool b) tl => by
    rw [collectArr]
    · cases hcf : collect_from st (JVal.jbool b) with
      | error s =>
        have h1 := collect_from_frame st (JVal.jbool b)
        rw [hcf] at h1
        exact h1
      | ok s =>
        have h1 := collect_from_frame st (JVal.jbool b)
        rw [hcf] at h1
        exact cframe_trans h1 (collectArr_frame s tl)
    · intro o h
      exact JVal.noConfusion h
  | st, .cons (.num n) tl => by
    rw [collectArr]
    · cases hcf : collect_from st (JVal.num n) with
      | error s =>
        have h1 := collect_from_frame st (JVal.num n)
        rw [hcf] at h1
        exact h1
      | ok s =>
        have h1 := collect_from_frame st (JVal.num n)
        rw [hcf] at h1
        exact cframe_trans h1 (collectArr_frame s tl)
    · intro o h
      exact JVal.noConfusion h
  | st, .cons (.str sv) tl => by
    rw [collectArr]
    · cases hcf : collect_from st (JVal.str sv) with
      | error s =>
        have h1 := collect_from_frame st (JVal.str sv)
        rw [hcf] at h1
        exact h1
      | ok s =>
        have h1 := collect_from_frame st (JVal.str sv)
        rw [hcf] at h1
        exact cframe_trans h1 (collectArr_frame s tl)
    · intro o h
      exact JVal.noConfusion h
  | st, .cons (.arr its) tl => by
    rw [collectArr]
    · cases hcf : collect_from st (JVal.arr its) with
      | error s =>
        have h1 := collect_from_frame st (JVal.arr its)
        rw [hcf] at h1
        exact h1
      | ok s =>
        have h1 := collect_from_frame st (JVal.arr its)
        rw [hcf] at h1
        exact cframe_trans h1 (collectArr_frame s tl)
    · intro o h
      exact JVal.noConfusion h
termination_by st items => sizeOf items
decreasing_by
  all_goals simp_wf
  all_goals try simp only [JVal.obj.sizeOf_spec, JVal.arr.sizeOf_spec,
    JObj.cons.sizeOf_spec, JArr.cons.sizeOf_spec]
  all_goals omega

end

mutual

theorem collect_from_isOk : ∀ (st st' : IngestState) (v : JVal),
    (collect_from st v).isOk = (collect_from st' v).isOk
  | st, st', .obj o => by
    rw [collect_from, collect_from]
    cases hf : jobjFindArr o with
    | some items =>
      have hlt : sizeOf items < 1 + sizeOf o := by
        have h2 := jobjFindArr_size o items hf
        omega
      exact collectArr_isOk st st' items
    | none => exact collectVals_isOk st st' o
  | st, st', .arr items => by
    rw [collect_from, collect_from]
    exact collectArr_isOk st st' items
  | st, st', .null => by
    rw [collect_from, collect_from]
    all_goals try rfl
    all_goals intro x h
    all_goals exact JVal.noConfusion h
  | st, st', (.jbool b) => by
    rw [collect_from, collect_from]
    all_goals try rfl
    all_goals intro x h
    all_goals exact JVal.noConfusion h
  | st, st', (.num n) => by
    rw [collect_from, collect_from]
    all_goals try rfl
    all_goals intro x h
    all_goals exact JVal.noConfusion h
  | st, st', (.str sv) => by
    rw [collect_from, collect_from]
    all_goals try rfl
    all_goals intro x h
    all_goals exact JVal.noConfusion h
termination_by st st' v => sizeOf v
decreasing_by
  all_goals simp_wf
  all_goals try simp only [JVal.obj.sizeOf_spec, JVal.arr.sizeOf_spec,
    JObj.cons.sizeOf_spec, JArr.cons.sizeOf_spec]
  all_goals omega

theorem collectVals_isOk : ∀ (st st' : IngestState) (o : JObj),
    (collectVals st o).isOk = (collectVals st' o).isOk
  | st, st', .nil => by
    rw [collectVals, collectVals]
    rfl
  | st, st', .cons k v tl => by
    rw [collectVals, collectVals]
    have hiok := collect_from_isOk st st' v
    cases hcf : collect_from st v with
    | error s =>
      cases hcf' : collect_from st' v with
      | error s2 => rfl
      | ok s2 =>
        exfalso
        rw [hcf, hcf'] at hiok
        simp [Except.isOk, Except.toBool] at hiok
    | ok s =>
      cases hcf' : collect_from st' v with
      | error s2 =>
        exfalso
        rw [hcf, hcf'] at hiok
        simp [Except.isOk, Except.toBool] at hiok
      | ok s2 => exact collectVals_isOk s s2 tl
termination_by st st' o => sizeOf o
decreasing_by
  all_goals simp_wf
  all_goals try simp only [JVal.obj.sizeOf_spec, JVal.arr.sizeOf_spec,
    JObj.cons.sizeOf_spec, JArr.cons.sizeOf_spec]
  all_goals omega

theorem collectArr_isOk : ∀ (st st' : IngestState) (items : JArr),
    (collectArr st items).isOk = (collectArr st' items).isOk
  | st, st', .nil => by
    rw [collectArr, collectArr]
    rfl
  | st, st', .cons (.obj o) tl => by
    rw [collectArr, collectArr]
    dsimp only
    by_cases hk : (jOr (JObj.get o "articleNo") (JObj.get o "atclNo")).truthy = true
    · rw [if_pos hk, if_pos hk]
      cases hup : pyUpper (jOr (JObj.get o "tradeType")
          (jOr (JObj.get o "tradTp") (.str ""))) with
      | error e => rfl
      | ok tcode =>
        dsimp only
        cases hstp : pyStripVal (jOr (JObj.get o "tradeTypeName") (.str "")) with
        | error e => rfl
        | ok tname =>
          dsimp only
          by_cases hfl : (tcode ≠ "A1" && tname ≠ "매매" && tname ≠ "SALE") = true
          · rw [if_pos hfl, if_pos hfl]
            exact collectArr_isOk st st' tl
          · rw [if_neg hfl, if_neg hfl]
            exact collectArr_isOk _ _ tl
    · rw [if_neg hk, if_neg hk]
      exact collectArr_isOk st st' tl
  | st, st', .cons .null tl => by
    rw [collectArr]
    · rw [collectArr]
      · have hiok := collect_from_isOk st st' JVal.null
        cases hcf : collect_from st JVal.null with
        | error s =>
          cases hcf' : collect_from st' JVal.null with
          | error s2 => rfl
          | ok s2 =>
            exfalso
            rw [hcf, hcf'] at hiok
            simp [Except.isOk, Except.toBool] at hiok
        | ok s =>
          cases hcf' : collect_from st' JVal.null with
          | error s2 =>
            exfalso
            rw [hcf, hcf'] at hiok
            simp [Except.isOk, Except.toBool] at hiok
          | ok s2 => exact collectArr_isOk s s2 tl
      · intro o h
        exact JVal.noConfusion h
    · intro o h
      exact JVal.noConfusion h
  | st, st', .cons (.jbool b) tl => by
    rw [collectArr]
    · rw [collectArr]
      · have hiok := collect_from_isOk st st' (JVal.jbool b)
        cases hcf : collect_from st (JVal.jbool b) with
        | error s =>
          cases hcf' : collect_from st' (JVal.jbool b) with
          | error s2 => rfl
          | ok s2 =>
            exfalso
            rw [hcf, hcf'] at hiok
            simp [Except.isOk, Except.toBool] at hiok
        | ok s =>
          cases hcf' : collect_from st' (JVal.jbool b) with
          | error s2 =>
            exfalso
            rw [hcf, hcf'] at hiok
            simp [Except.isOk, Except.toBool] at hiok
          | ok s2 => exact collectArr_isOk s s2 tl
      · intro o h
        exact JVal.noConfusion h
    · intro o h
      exact JVal.noConfusion h
  | st, st', .cons (.num n) tl => by
    rw [collectArr]
    · rw [collectArr]
      · have hiok := collect_from_isOk st st' (JVal.num n)
        cases hcf : collect_from st (JVal.num n) with
        | error s =>
          cases hcf' : collect_from st' (JVal.num n) with
          | error s2 => rfl
          | ok s2 =>
            exfalso
            rw [hcf, hcf'] at hiok
            simp [Except.isOk, Except.toBool] at hiok
        | ok s =>
          cases hcf' : collect_from st' (JVal.num n) with
          | error s2 =>
            exfalso
            rw [hcf, hcf'] at hiok
            simp [Except.isOk, Except.toBool] at hiok
          | ok s2 => exact collectArr_isOk s s2 tl
      · intro o h
        exact JVal.noConfusion h
    · intro o h
      exact JVal.noConfusion h
  | st, st', .cons (.str sv) tl => by
    rw [collectArr]
    · rw [collectArr]
      · have hiok := collect_from_isOk st st' (JVal.str sv)
        cases hcf : collect_from st (JVal.str sv) with
        | error s =>
          cases hcf' : collect_from st' (JVal.str sv) with
          | error s2 => rfl
          | ok s2 =>
            exfalso
            rw [hcf, hcf'] at hiok
            simp [Except.isOk, Except.toBool] at hiok
        | ok s =>
          cases hcf' : collect_from st' (JVal.str sv) with
          | error s2 =>
            exfalso
            rw [hcf, hcf'] at hiok
            simp [Except.isOk, Except.toBool] at hiok
          | ok s2 => exact collectArr_isOk s s2 tl
      · intro o h
        exact JVal.noConfusion h
    · intro o h
      exact JVal.noConfusion h
  | st, st', .cons (.arr its) tl => by
    rw [collectArr]
    · rw [collectArr]
      · have hiok := collect_from_isOk st st' (JVal.arr its)
        cases hcf : collect_from st (JVal.arr its) with
        | error s =>
          cases hcf' : collect_from st' (JVal.arr its) with
          | error s2 => rfl
          | ok s2 =>
            exfalso
            rw [hcf, hcf'] at hiok
            simp [Except.isOk, Except.toBool] at hiok
        | ok s =>
          cases hcf' : collect_from st' (JVal.arr its) with
          | error s2 =>
            exfalso
            rw [hcf, hcf'] at hiok
            simp [Except.isOk, Except.toBool] at hiok
          | ok s2 => exact collectArr_isOk s s2 tl
      · intro o h
        exact JVal.noConfusion h
    · intro o h
      exact JVal.noConfusion h
termination_by st st' items => sizeOf items
decreasing_by
  all_goals simp_wf
  all_goals try simp only [JVal.obj.sizeOf_spec, JVal.arr.sizeOf_spec,
    JObj.cons.sizeOf_spec, JArr.cons.sizeOf_spec]
  all_goals omega

end

mutual

theorem collect_from_cov : ∀ (st t : IngestState) (v : JVal),
    (∀ x, x ∈ (chanMerge (collect_from st v)).seen_article →
      x ∈ t.seen_article) →
    slOf (chanMerge (collect_from t v)) = slOf t
  | st, t, .obj o, hcov => by
    rw [collect_from]
    cases hf : jobjFindArr o with
    | some items =>
      have hlt : sizeOf items < 1 + sizeOf o := by
        have h2 := jobjFindArr_size o items hf
        omega
      have heq : collect_from st (JVal.obj o) = collectArr st items := by
        rw [collect_from]
        split
        next its h2 =>
          rw [hf] at h2
          injection h2 with h2
          rw [h2]
        next h2 =>
          rw [hf] at h2
          exact Option.noConfusion h2
      refine collectArr_cov st t items ?_
      intro x hx
      refine hcov x ?_
      rw [heq]
      exact hx
    | none =>
      have heq : collect_from st (JVal.obj o) = collectVals st o := by
        rw [collect_from]
        split
        next its h2 =>
          rw [hf] at h2
          exact Option.noConfusion h2
        next h2 => rfl
      refine collectVals_cov st t o ?_
      intro x hx
      refine hcov x ?_
      rw [heq]
      exact hx
  | st, t, .arr items, hcov => by
    rw [collect_from]
    have heq : collect_from st (JVal.arr items) = collectArr st items := by
      rw [collect_from]
    refine collectArr_cov st t items ?_
    intro x hx
    refine hcov x ?_
    rw [heq]
    exact hx
  | st, t, .null, hcov => by
    rw [collect_from]
    all_goals try rfl
    all_goals intro x h
    all_goals exact JVal.noConfusion h
  | st, t, (.jbool b), hcov => by
    rw [collect_from]
    all_goals try rfl
    all_goals intro x h
    all_goals exact JVal.noConfusion h
  | st, t, (.num n), hcov => by
    rw [collect_from]
    all_goals try rfl
    all_goals intro x h
    all_goals exact JVal.noConfusion h
  | st, t, (.str sv), hcov => by
    rw [collect_from]
    all_goals try rfl
    all_goals intro x h
    all_goals exact JVal.noConfusion h
termination_by st t v hcov => sizeOf v
decreasing_by
  all_goals simp_wf
  all_goals try simp only [JVal.obj.sizeOf_spec, JVal.arr.sizeOf_spec,
    JObj.cons.sizeOf_spec, JArr.cons.sizeOf_spec]
  all_goals omega

theorem collectVals_cov : ∀ (st t : IngestState) (o : JObj),
    (∀ x, x ∈ (chanMerge (collectVals st o)).seen_article →
      x ∈ t.seen_article) →
    slOf (chanMerge (collectVals t o)) = slOf t
  | st, t, .nil, hcov => by
    rw [collectVals]
    rfl
  | st, t, .cons k v tl, hcov => by
    rw [collectVals] at hcov
    rw [collectVals]
    have hiok := collect_from_isOk st t v
    cases hcf : collect_from st v with
    | error s =>
      cases hct : collect_from t v with
      | ok s2 =>
        exfalso
        rw [hcf, hct] at hiok
        simp [Except.isOk, Except.toBool] at hiok
      | error s2 =>
        have h1 := collect_from_cov st t v (by
          intro x hx
          refine hcov x ?_
          rw [hcf]
          rw [hcf] at hx
          exact hx)
        rw [hct] at h1
        exact h1
    | ok s =>
      cases hct : collect_from t v with
      | error s2 =>
        exfalso
        rw [hcf, hct] at hiok
        simp [Except.isOk, Except.toBool] at hiok
      | ok s2 =>
        have h1 := collect_from_cov st t v (by
          intro x hx
          refine hcov x ?_
          rw [hcf]
          rw [hcf] at hx
          exact (collectVals_frame s tl).2.2.2.2.2 x hx)
        rw [hct] at h1
        have hseq : s2.seen_article = t.seen_article :=
          congrArg (fun z => z.2.2.2.2.1) h1
        have h2 := collectVals_cov s s2 tl (by
          intro x hx
          rw [hseq]
          refine hcov x ?_
          rw [hcf]
          exact hx)
        exact h2.trans h1
termination_by st t o hcov => sizeOf o
decreasing_by
  all_goals simp_wf
  all_goals try simp only [JVal.obj.sizeOf_spec, JVal.arr.sizeOf_spec,
    JObj.cons.sizeOf_spec, JArr.cons.sizeOf_spec]
  all_goals omega

theorem collectArr_cov : ∀ (st t : IngestState) (items : JArr),
    (∀ x, x ∈ (chanMerge (collectArr st items)).seen_article →
      x ∈ t.seen_article) →
    slOf (chanMerge (collectArr t items)) = slOf t
  | st, t, .nil, hcov => by
    rw [collectArr]
    rfl
  | st, t, .cons (.obj o) tl, hcov => by
    rw [collectArr] at hcov
    rw [collectArr]
    dsimp only at hcov ⊢
    by_cases hk : (jOr (JObj.get o "articleNo") (JObj.get o "atclNo")).truthy = true
    · rw [if_pos hk] at hcov ⊢
      cases hup : pyUpper (jOr (JObj.get o "tradeType")
          (jOr (JObj.get o "tradTp") (.str ""))) with
      | error e => rfl
      | ok tcode =>
        rw [hup] at hcov
        dsimp only at hcov ⊢
        cases hstp : pyStripVal (jOr (JObj.get o "tradeTypeName") (.str "")) with
        | error e => rfl
        | ok tname =>
          rw [hstp] at hcov
          dsimp only at hcov ⊢
          by_cases hfl : (tcode ≠ "A1" && tname ≠ "매매" && tname ≠ "SALE") = true
          · rw [if_pos hfl] at hcov ⊢
            exact collectArr_cov st t tl hcov
          · rw [if_neg hfl] at hcov ⊢
            have hin : ∀ u : IngestState, (jOr (JObj.get o "articleNo")
                (JObj.get o "atclNo")) ∈
                (if u.seen_article.contains (jOr (JObj.get o "articleNo")
                    (JObj.get o "atclNo")) = true then u
                  else { u with
                    seen_article := u.seen_article ++
                      [jOr (JObj.get o "articleNo") (JObj.get o "atclNo")],
                    article_list :=
                      u.article_list ++ [JVal.obj o] }).seen_article := by
              intro u
              split
              next hc => exact List.elem_iff.mp hc
              next hc => simp
            have hmem := (collectArr_frame _ tl).2.2.2.2.2 _ (hin st)
            have hct : t.seen_article.contains (jOr (JObj.get o "articleNo")
                (JObj.get o "atclNo")) = true :=
              List.elem_iff.mpr (hcov _ hmem)
            rw [if_pos hct]
            exact collectArr_cov _ t tl hcov
    · rw [if_neg hk] at hcov ⊢
      exact collectArr_cov st t tl hcov
  | st, t, .cons .null tl, hcov => by
    rw [collectArr] at hcov
    · rw [collectArr]
      · have hiok := collect_from_isOk st t JVal.null
        cases hcf : collect_from st JVal.null with
        | error s =>
          cases hct : collect_from t JVal.null with
          | ok s2 =>
            exfalso
            rw [hcf, hct] at hiok
            simp [Except.isOk, Except.toBool] at hiok
          | error s2 =>
            have h1 := collect_from_cov st t JVal.null (by
              intro x hx
              refine hcov x ?_
              rw [hcf]
              rw [hcf] at hx
              exact hx)
            rw [hct] at h1
            exact h1
        | ok s =>
          cases hct : collect_from t JVal.null with
          | error s2 =>
            exfalso
            rw [hcf, hct] at hiok
            simp [Except.isOk, Except.toBool] at hiok
          | ok s2 =>
            have h1 := collect_from_cov st t JVal.null (by
              intro x hx
              refine hcov x ?_
              rw [hcf]
              rw [hcf] at hx
              exact (collectArr_frame s tl).2.2.2.2.2 x hx)
            rw [hct] at h1
            have hseq : s2.seen_article = t.seen_article :=
              congrArg (fun z => z.2.2.2.2.1) h1
            have h2 := collectArr_cov s s2 tl (by
              intro x hx
              rw [hseq]
              refine hcov x ?_
              rw [hcf]
              exact hx)
            exact h2.trans h1
      · intro o h
        exact JVal.noConfusion h
    · intro o h
      exact JVal.noConfusion h
  | st, t, .cons (.jbool b) tl, hcov => by
    rw [collectArr] at hcov
    · rw [collectArr]
      · have hiok := collect_from_isOk st t (JVal.jbool b)
        cases hcf : collect_from st (JVal.jbool b) with
        | error s =>
          cases hct : collect_from t (JVal.jbool b) with
          | ok s2 =>
            exfalso
            rw [hcf, hct] at hiok
            simp [Except.isOk, Except.toBool] at hiok
          | error s2 =>
            have h1 := collect_from_cov st t (JVal.jbool b) (by
              intro x hx
              refine hcov x ?_
              rw [hcf]
              rw [hcf] at hx
              exact hx)
            rw [hct] at h1
            exact h1
        | ok s =>
          cases hct : collect_from t (JVal.jbool b) with
          | error s2 =>
            exfalso
            rw [hcf, hct] at hiok
            simp [Except.isOk, Except.toBool] at hiok
          | ok s2 =>
            have h1 := collect_from_cov st t (JVal.jbool b) (by
              intro x hx
              refine hcov x ?_
              rw [hcf]
              rw [hcf] at hx
              exact (collectArr_frame s tl).2.2.2.2.2 x hx)
            rw [hct] at h1
            have hseq : s2.seen_article = t.seen_article :=
              congrArg (fun z => z.2.2.2.2.1) h1
            have h2 := collectArr_cov s s2 tl (by
              intro x hx
              rw [hseq]
              refine hcov x ?_
              rw [hcf]
              exact hx)
            exact h2.trans h1
      · intro o h
        exact JVal.noConfusion h
    · intro o h
      exact JVal.noConfusion h
  | st, t, .cons (.num n) tl, hcov => by
    rw [collectArr] at hcov
    · rw [collectArr]
      · have hiok := collect_from_isOk st t (JVal.num n)
        cases hcf : collect_from st (JVal.num n) with
        | error s =>
          cases hct : collect_from t (JVal.num n) with
          | ok s2 =>
            exfalso
            rw [hcf, hct] at hiok
            simp [Except.isOk, Except.toBool] at hiok
          | error s2 =>
            have h1 := collect_from_cov st t (JVal.num n) (by
              intro x hx
              refine hcov x ?_
              rw [hcf]
              rw [hcf] at hx
              exact hx)
            rw [hct] at h1
            exact h1
        | ok s =>
          cases hct : collect_from t (JVal.num n) with
          | error s2 =>
            exfalso
            rw [hcf, hct] at hiok
            simp [Except.isOk, Except.toBool] at hiok
          | ok s2 =>
            have h1 := collect_from_cov st t (JVal.num n) (by
              intro x hx
              refine hcov x ?_
              rw [hcf]
              rw [hcf] at hx
              exact (collectArr_frame s tl).2.2.2.2.2 x hx)
            rw [hct] at h1
            have hseq : s2.seen_article = t.seen_article :=
              congrArg (fun z => z.2.2.2.2.1) h1
            have h2 := collectArr_cov s s2 tl (by
              intro x hx
              rw [hseq]
              refine hcov x ?_
              rw [hcf]
              exact hx)
            exact h2.trans h1
      · intro o h
        exact JVal.noConfusion h
    · intro o h
      exact JVal.noConfusion h
  | st, t, .cons (.str sv) tl, hcov => by
    rw [collectArr] at hcov
    · rw [collectArr]
      · have hiok := collect_from_isOk st t (JVal.str sv)
        cases hcf : collect_from st (JVal.str sv) with
        | error s =>
          cases hct : collect_from t (JVal.str sv) with
          | ok s2 =>
            exfalso
            rw [hcf, hct] at hiok
            simp [Except.isOk, Except.toBool] at hiok
          | error s2 =>
            have h1 := collect_from_cov st t (JVal.str sv) (by
              intro x hx
              refine hcov x ?_
              rw [hcf]
              rw [hcf] at hx
              exact hx)
            rw [hct] at h1
            exact h1
        | ok s =>
          cases hct : collect_from t (JVal.str sv) with
          | error s2 =>
            exfalso
            rw [hcf, hct] at hiok
            simp [Except.isOk, Except.toBool] at hiok
          | ok s2 =>
            have h1 := collect_from_cov st t (JVal.str sv) (by
              intro x hx
              refine hcov x ?_
              rw [hcf]
              rw [hcf] at hx
              exact (collectArr_frame s tl).2.2.2.2.2 x hx)
            rw [hct] at h1
            have hseq : s2.seen_article = t.seen_article :=
              congrArg (fun z => z.2.2.2.2.1) h1
            have h2 := collectArr_cov s s2 tl (by
              intro x hx
              rw [hseq]
              refine hcov x ?_
              rw [hcf]
              exact hx)
            exact h2.trans h1
      · intro o h
        exact JVal.noConfusion h
    · intro o h
      exact JVal.noConfusion h
  | st, t, .cons (.arr its) tl, hcov => by
    rw [collectArr] at hcov
    · rw [collectArr]
      · have hiok := collect_from_isOk st t (JVal.arr its)
        cases hcf : collect_from st (JVal.arr its) with
        | error s =>
          cases hct : collect_from t (JVal.arr its) with
          | ok s2 =>
            exfalso
            rw [hcf, hct] at hiok
            simp [Except.isOk, Except.toBool] at hiok
          | error s2 =>
            have h1 := collect_from_cov st t (JVal.arr its) (by
              intro x hx
              refine hcov x ?_
              rw [hcf]
              rw [hcf] at hx
              exact hx)
            rw [hct] at h1
            exact h1
        | ok s =>
          cases hct : collect_from t (JVal.arr its) with
          | error s2 =>
            exfalso
            rw [hcf, hct] at hiok
            simp [Except.isOk, Except.toBool] at hiok
          | ok s2 =>
            have h1 := collect_from_cov st t (JVal.arr its) (by
              intro x hx
              refine hcov x ?_
              rw [hcf]
              rw [hcf] at hx
              exact (collectArr_frame s tl).2.2.2.2.2 x hx)
            rw [hct] at h1
            have hseq : s2.seen_article = t.seen_article :=
              congrArg (fun z => z.2.2.2.2.1) h1
            have h2 := collectArr_cov s s2 tl (by
              intro x hx
              rw [hseq]
              refine hcov x ?_
              rw [hcf]
              exact hx)
            exact h2.trans h1
      · intro o h
        exact JVal.noConfusion h
    · intro o h
      exact JVal.noConfusion h
termination_by st t items hcov => sizeOf items
decreasing_by
  all_goals simp_wf
  all_goals try simp only [JVal.obj.sizeOf_spec, JVal.arr.sizeOf_spec,
    JObj.cons.sizeOf_spec, JArr.cons.sizeOf_spec]
  all_goals omega

end

theorem meta_step_slOf (c : Option String) (tv : JVal) (u : IngestState) :
    slOf (chanMerge (meta_count_step c tv u)) = slOf u := by
  unfold meta_count_step
  repeat' first | split | dsimp only
  all_goals rfl

theorem meta_step_isOk (c : Option String) (tv : JVal) (u u' : IngestState) :
    (meta_count_step c tv u).isOk = (meta_count_step c tv u').isOk := by
  unfold meta_count_step
  repeat' first | split | dsimp only
  all_goals first | rfl | simp_all [Except.isOk, Except.toBool]

theorem process_articles_idem (hu : Bool) (c : Option String)
    (st : IngestState) (body : Option JVal) :
    slOf (process_articles hu c (process_articles hu c st body) body) =
      slOf (process_articles hu c st body) := by
  cases body with
  | none => rfl
  | some data =>
    cases data with
    | null => rfl
    | jbool b => rfl
    | num n => rfl
    | str sv => rfl
    | arr its => rfl
    | obj dobj =>
      unfold process_articles
      dsimp only
      set tv := jOr (JObj.get dobj "totalCount")
        (jOr (JObj.get dobj "count") (JVal.num 0)) with htv
      have hiso := meta_step_isOk c tv
      cases hms : meta_count_step c tv st with
      | error s =>
        cases hms2 : meta_count_step c tv s with
        | error s2 =>
          have h := meta_step_slOf c tv s
          rw [hms2] at h
          exact h
        | ok s2 =>
          exfalso
          have h := hiso st s
          rw [hms, hms2] at h
          simp [Except.isOk, Except.toBool] at h
      | ok st1 =>
        cases harr : jOr (JObj.get dobj "articleList")
            (jOr (JObj.get dobj "articles") (JVal.arr JArr.nil)) with
        | arr items =>
          cases hms2 : meta_count_step c tv
              (foldItems (article_item_step hu) st1 items) with
          | error s2 =>
            exfalso
            have h := hiso st (foldItems (article_item_step hu) st1 items)
            rw [hms, hms2] at h
            simp [Except.isOk, Except.toBool] at h
          | ok st1' =>
            have hsl := meta_step_slOf c tv
              (foldItems (article_item_step hu) st1 items)
            rw [hms2] at hsl
            have hseq : st1'.seen_article =
                (foldItems (article_item_step hu) st1 items).seen_article :=
              congrArg (fun z => z.2.2.2.2.1) hsl
            have h2 := article_fold_idem hu items st1 st1' (by
              intro x hx
              rw [hseq]
              exact hx)
            exact h2.trans hsl
        | null =>
          cases hms2 : meta_count_step c tv st1 with
          | error s2 =>
            exfalso
            have h := hiso st st1
            rw [hms, hms2] at h
            simp [Except.isOk, Except.toBool] at h
          | ok st1'' =>
            have hsl := meta_step_slOf c tv st1
            rw [hms2] at hsl
            exact hsl
        | jbool b =>
          cases hms2 : meta_count_step c tv st1 with
          | error s2 =>
            exfalso
            have h := hiso st st1
            rw [hms, hms2] at h
            simp [Except.isOk, Except.toBool] at h
          | ok st1'' =>
            have hsl := meta_step_slOf c tv st1
            rw [hms2] at hsl
            exact hsl
        | num n =>
          cases hms2 : meta_count_step c tv st1 with
          | error s2 =>
            exfalso
            have h := hiso st st1
            rw [hms, hms2] at h
            simp [Except.isOk, Except.toBool] at h
          | ok st1'' =>
            have hsl := meta_step_slOf c tv st1
            rw [hms2] at hsl
            exact hsl
        | str sv =>
          cases hms2 : meta_count_step c tv st1 with
          | error s2 =>
            exfalso
            have h := hiso st st1
            rw [hms, hms2] at h
            simp [Except.isOk, Except.toBool] at h
          | ok st1'' =>
            have hsl := meta_step_slOf c tv st1
            rw [hms2] at hsl
            exact hsl
        | obj o2 =>
          cases hms2 : meta_count_step c tv st1 with
          | error s2 =>
            exfalso
            have h := hiso st st1
            rw [hms, hms2] at h
            simp [Except.isOk, Except.toBool] at h
          | ok st1'' =>
            have hsl := meta_step_slOf c tv st1
            rw [hms2] at hsl
            exact hsl

/-- C6: dedup idempotence — handling the same backend response a second
time leaves all six session buffers (the three seen-sets and the three
accumulation lists) exactly as after the first time: every already-seen
marker id, listing id and (dealDate, area, floor, dealPrice) tuple is
dropped, not merged. -/
theorem C6_dedup_idempotence (capture : Bool) (st : IngestState)
    (resp : NetResponse) :
    slOf (handle_response capture (handle_response capture st resp) resp) =
      slOf (handle_response capture st resp) := by
  cases capture with
  | false => rfl
  | true =>
    unfold handle_response
    dsimp only
    have hfb : ¬((!true : Bool) = true) := by simp
    rw [if_neg hfb, if_neg hfb]
    by_cases h1 : (pyContains resp.url "complexes/single-markers" ||
        pyContains resp.url "houses/single-markers") = true
    · rw [if_pos h1, if_pos h1]
      cases hb : resp.body with
      | none => rfl
      | some data =>
        cases data with
        | null => rfl
        | jbool b => rfl
        | num n => rfl
        | str sv => rfl
        | obj o => rfl
        | arr items =>
          exact marker_fold_idem _ items st _ (fun x hx => hx)
    · rw [if_neg h1, if_neg h1]
      by_cases h2 : (pyContains resp.url "/api/articles/complex/" ||
          pyContains resp.url "/api/articles/house/") = true
      · rw [if_pos h2, if_pos h2]
        exact process_articles_idem _ _ st resp.body
      · rw [if_neg h2, if_neg h2]
        by_cases h3 : (pyContains resp.url "/api/complexes/" &&
            pyContains resp.url "/prices") = true
        · rw [if_pos h3, if_pos h3]
          cases hb : resp.body with
          | none => rfl
          | some data =>
            cases data with
            | null => rfl
            | jbool b => rfl
            | num n => rfl
            | str sv => rfl
            | obj o => rfl
            | arr items =>
              exact trade_fold_idem items st _ (fun x hx => hx)
        · rw [if_neg h3, if_neg h3]
          by_cases h4 : pyContains resp.url "/api/" = true
          · rw [if_pos h4, if_pos h4]
            cases hb : resp.body with
            | none => rfl
            | some data =>
              dsimp only
              cases hc1 : collect_from st data with
              | error s =>
                have h := collect_from_cov st s data (by
                  intro x hx
                  rw [hc1] at hx
                  exact hx)
                cases hc2 : collect_from s data with
                | error s2 =>
                  rw [hc2] at h
                  exact h
                | ok s2 =>
                  rw [hc2] at h
                  exact h
              | ok s =>
                have h := collect_from_cov st s data (by
                  intro x hx
                  rw [hc1] at hx
                  exact hx)
                cases hc2 : collect_from s data with
                | error s2 =>
                  rw [hc2] at h
                  exact h
                | ok s2 =>
                  rw [hc2] at h
                  exact h
          · rw [if_neg h4, if_neg h4]

theorem lookupMeta_setMeta_eq : ∀ (m : List (String × JVal × Int)) (k : String)
    (v : JVal × Int), lookupMeta (setMeta m k v) k = some v
  | [], k, v => by simp [setMeta, lookupMeta]
  | (k0, w) :: tl, k, v => by
    unfold setMeta
    by_cases hk : k0 = k
    · rw [if_pos hk]
      unfold lookupMeta
      rw [if_pos hk]
    · rw [if_neg hk]
      unfold lookupMeta
      rw [if_neg hk]
      exact lookupMeta_setMeta_eq tl k v

theorem lookupMeta_setMeta_ne : ∀ (m : List (String × JVal × Int)) (k k' : String)
    (v : JVal × Int), k ≠ k' → lookupMeta (setMeta m k v) k' = lookupMeta m k'
  | [], k, k', v, hne => by
    simp [setMeta, lookupMeta]
    intro h
    exact absurd h hne
  | (k0, w) :: tl, k, k', v, hne => by
    unfold setMeta
    by_cases hk : k0 = k
    · rw [if_pos hk]
      unfold lookupMeta
      by_cases hk' : k0 = k'
      · exact absurd (hk.symm.trans hk') hne
      · rw [if_neg hk', if_neg hk']
    · rw [if_neg hk]
      unfold lookupMeta
      by_cases hk' : k0 = k'
      · rw [if_pos hk', if_pos hk']
      · rw [if_neg hk', if_neg hk']
        exact lookupMeta_setMeta_ne tl k k' v hne

theorem metaGE_refl (a : IngestState) : MetaGE a a :=
  fun _ nm c hl => ⟨nm, c, hl, le_refl c⟩

theorem metaGE_trans {a b c : IngestState} (h1 : MetaGE a b) (h2 : MetaGE b c) :
    MetaGE a c := by
  intro cno nm cc hl
  obtain ⟨nm2, c2, hl2, hle2⟩ := h2 cno nm cc hl
  obtain ⟨nm3, c3, hl3, hle3⟩ := h1 cno nm2 c2 hl2
  exact ⟨nm3, c3, hl3, le_trans hle2 hle3⟩

theorem metaGE_of_meta_eq {a b : IngestState}
    (h : a.complex_meta = b.complex_meta) : MetaGE a b :=
  fun _ nm c hl => ⟨nm, c, by rw [h]; exact hl, le_refl c⟩

theorem marker_step_ok_meta (hu : Bool) (st : IngestState) (it : JVal)
    (s : IngestState) (h : marker_item_step hu st it = .ok s) :
    s.complex_meta = st.complex_meta ∨
    ∃ cno nmc, s.complex_meta = setMeta st.complex_meta cno nmc ∧
      ∀ p : JVal × Int, lookupMeta st.complex_meta cno = some p →
        p.2 ≤ nmc.2 := by
  unfold marker_item_step at h
  dsimp only at h
  repeat' split at h
  all_goals try exact Except.noConfusion h
  all_goals injection h with h
  all_goals subst h
  all_goals try exact Or.inl rfl
  all_goals refine Or.inr ⟨_, _, rfl, ?_⟩
  all_goals intro p hp
  all_goals simp only [hp, Option.getD_some] at *
  all_goals omega

theorem marker_step_metaGE (hu : Bool) (st : IngestState) (it : JVal) :
    MetaGE (stepRes (marker_item_step hu) st it) st := by
  cases hstep : marker_item_step hu st it with
  | error s =>
    have hres : stepRes (marker_item_step hu) st it = s := by
      simp [stepRes, chanMerge, hstep]
    rw [hres, marker_step_error_eq hu st it s hstep]
    exact metaGE_refl st
  | ok s =>
    have hres : stepRes (marker_item_step hu) st it = s := by
      simp [stepRes, chanMerge, hstep]
    rw [hres]
    rcases marker_step_ok_meta hu st it s hstep with hm | ⟨cno, nmc, hset, hle⟩
    · exact metaGE_of_meta_eq hm
    · intro cno0 nm c hl
      by_cases hk : cno = cno0
      · subst hk
        refine ⟨nmc.1, nmc.2, ?_, hle (nm, c) hl⟩
        rw [hset, lookupMeta_setMeta_eq]
      · refine ⟨nm, c, ?_, le_refl c⟩
        rw [hset, lookupMeta_setMeta_ne _ _ _ _ hk]
        exact hl

theorem article_step_metaGE (hu : Bool) (st : IngestState) (it : JVal) :
    MetaGE (stepRes (article_item_step hu) st it) st := by
  cases hstep : article_item_step hu st it with
  | error s =>
    have hres : stepRes (article_item_step hu) st it = s := by
      simp [stepRes, chanMerge, hstep]
    rw [hres, article_step_error_eq hu st it s hstep]
    exact metaGE_refl st
  | ok s =>
    have hres : stepRes (article_item_step hu) st it = s := by
      simp [stepRes, chanMerge, hstep]
    rw [hres]
    exact metaGE_of_meta_eq (article_step_ok_shape hu st it s hstep).2.2.2.2.2

theorem trade_step_metaGE (st : IngestState) (it : JVal) :
    MetaGE (stepRes trade_item_step st it) st := by
  cases hstep : trade_item_step st it with
  | error s =>
    have hres : stepRes trade_item_step st it = s := by
      simp [stepRes, chanMerge, hstep]
    rw [hres, trade_step_error_eq st it s hstep]
    exact metaGE_refl st
  | ok s =>
    have hres : stepRes trade_item_step st it = s := by
      simp [stepRes, chanMerge, hstep]
    rw [hres]
    exact metaGE_of_meta_eq (trade_step_ok_shape st it s hstep).2.2.2.2.2

theorem foldItems_metaGE
    (f : IngestState → JVal → Except IngestState IngestState)
    (hstepGE : ∀ st it, MetaGE (stepRes f st it) st) :
    ∀ (l : JArr) (st : IngestState), MetaGE (foldItems f st l) st
  | .nil, st => metaGE_refl st
  | .cons it tl, st => by
    rw [foldItems]
    have h1 := hstepGE st it
    cases hf : f st it with
    | error s =>
      have hres : stepRes f st it = s := by simp [stepRes, chanMerge, hf]
      rw [hres] at h1
      exact h1
    | ok s =>
      have hres : stepRes f st it = s := by simp [stepRes, chanMerge, hf]
      rw [hres] at h1
      exact metaGE_trans (foldItems_metaGE f hstepGE tl s) h1

theorem meta_step_metaGE (c : Option String) (tv : JVal) (u : IngestState) :
    MetaGE (chanMerge (meta_count_step c tv u)) u := by
  cases c with
  | none => exact metaGE_refl u
  | some cno =>
    unfold meta_count_step
    dsimp only
    by_cases hcnd : (cno ≠ "" && tv.truthy) = true
    · rw [if_pos hcnd]
      cases hj : jAsInt tv with
      | none =>
        intro cno0 nm c0 hl
        by_cases hk : cno = cno0
        · subst hk
          refine ⟨nm, c0, ?_, le_refl c0⟩
          dsimp only [chanMerge]
          rw [hl]
          simp only [Option.getD_some]
          exact lookupMeta_setMeta_eq u.complex_meta cno (nm, c0)
        · refine ⟨nm, c0, ?_, le_refl c0⟩
          dsimp only [chanMerge]
          rw [lookupMeta_setMeta_ne _ _ _ _ hk]
          exact hl
      | some n =>
        dsimp only
        by_cases hgt : n > ((lookupMeta u.complex_meta cno).getD
            (JVal.str "", 0)).2
        · rw [if_pos hgt]
          intro cno0 nm c0 hl
          by_cases hk : cno = cno0
          · subst hk
            refine ⟨((lookupMeta u.complex_meta cno).getD
              (JVal.str "", 0)).1, n, ?_, ?_⟩
            · dsimp only [chanMerge]
              exact lookupMeta_setMeta_eq _ cno _
            · rw [hl] at hgt
              simp only [Option.getD_some] at hgt
              exact le_of_lt hgt
          · refine ⟨nm, c0, ?_, le_refl c0⟩
            dsimp only [chanMerge]
            rw [lookupMeta_setMeta_ne _ _ _ _ hk,
              lookupMeta_setMeta_ne _ _ _ _ hk]
            exact hl
        · rw [if_neg hgt]
          intro cno0 nm c0 hl
          by_cases hk : cno = cno0
          · subst hk
            refine ⟨nm, c0, ?_, le_refl c0⟩
            dsimp only [chanMerge]
            rw [hl]
            simp only [Option.getD_some]
            exact lookupMeta_setMeta_eq u.complex_meta cno (nm, c0)
          · refine ⟨nm, c0, ?_, le_refl c0⟩
            dsimp only [chanMerge]
            rw [lookupMeta_setMeta_ne _ _ _ _ hk]
            exact hl
    · rw [if_neg hcnd]
      exact metaGE_refl u

theorem process_articles_metaGE (hu : Bool) (c : Option String)
    (st : IngestState) (body : Option JVal) :
    MetaGE (process_articles hu c st body) st := by
  cases body with
  | none => exact metaGE_refl st
  | some data =>
    cases data with
    | null => exact metaGE_refl st
    | jbool b => exact metaGE_refl st
    | num n => exact metaGE_refl st
    | str sv => exact metaGE_refl st
    | arr its => exact metaGE_refl st
    | obj dobj =>
      unfold process_articles
      dsimp only
      have hms := meta_step_metaGE c (jOr (JObj.get dobj "totalCount")
        (jOr (JObj.get dobj "count") (JVal.num 0))) st
      cases hm : meta_count_step c (jOr (JObj.get dobj "totalCount")
          (jOr (JObj.get dobj "count") (JVal.num 0))) st with
      | error s =>
        rw [hm] at hms
        exact hms
      | ok st1 =>
        rw [hm] at hms
        cases harr : jOr (JObj.get dobj "articleList")
            (jOr (JObj.get dobj "articles") (JVal.arr JArr.nil)) with
        | arr items =>
          exact metaGE_trans (foldItems_metaGE (article_item_step hu)
            (article_step_metaGE hu) items st1) hms
        | null => exact hms
        | jbool b => exact hms
        | num n => exact hms
        | str sv => exact hms
        | obj o2 => exact hms

theorem collect_metaGE (st : IngestState) (v : JVal) :
    MetaGE (chanMerge (collect_from st v)) st :=
  metaGE_of_meta_eq (collect_from_frame st v).2.2.2.2.1

/-- C7: the recorded `reportedCount` of every marker id is monotonically
non-decreasing across every ingestion operation: any response handled by
`handle_response` keeps an entry for each recorded id and never lowers its
count (the marker channel takes the max seen so far, the listing-list
channel raises it only when the payload total is larger, and the other
channels leave the store untouched). -/
theorem C7_reported_count_monotone (capture : Bool) (st : IngestState)
    (resp : NetResponse) (cno : String) (nm : JVal) (c : Int)
    (h : lookupMeta st.complex_meta cno = some (nm, c)) :
    ∃ nm' c', lookupMeta (handle_response capture st resp).complex_meta cno =
      some (nm', c') ∧ c ≤ c' := by
  have hGE : MetaGE (handle_response capture st resp) st := by
    cases capture with
    | false => exact metaGE_refl st
    | true =>
      unfold handle_response
      dsimp only
      have hfb : ¬((!true : Bool) = true) := by simp
      rw [if_neg hfb]
      by_cases h1 : (pyContains resp.url "complexes/single-markers" ||
          pyContains resp.url "houses/single-markers") = true
      · rw [if_pos h1]
        cases resp.body with
        | none => exact metaGE_refl st
        | some data =>
          cases data with
          | null => exact metaGE_refl st
          | jbool b => exact metaGE_refl st
          | num n => exact metaGE_refl st
          | str sv => exact metaGE_refl st
          | obj o => exact metaGE_refl st
          | arr items =>
            exact foldItems_metaGE _ (marker_step_metaGE _) items st
      · rw [if_neg h1]
        by_cases h2 : (pyContains resp.url "/api/articles/complex/" ||
            pyContains resp.url "/api/articles/house/") = true
        · rw [if_pos h2]
          exact process_articles_metaGE _ _ st resp.body
        · rw [if_neg h2]
          by_cases h3 : (pyContains resp.url "/api/complexes/" &&
              pyContains resp.url "/prices") = true
          · rw [if_pos h3]
            cases resp.body with
            | none => exact metaGE_refl st
            | some data =>
              cases data with
              | null => exact metaGE_refl st
              | jbool b => exact metaGE_refl st
              | num n => exact metaGE_refl st
              | str sv => exact metaGE_refl st
              | obj o => exact metaGE_refl st
              | arr items =>
                exact foldItems_metaGE _ trade_step_metaGE items st
          · rw [if_neg h3]
            by_cases h4 : pyContains resp.url "/api/" = true
            · rw [if_pos h4]
              cases resp.body with
              | none => exact metaGE_refl st
              | some data =>
                dsimp only
                have hc := collect_metaGE st data
                cases hc1 : collect_from st data with
                | error s =>
                  rw [hc1] at hc
                  exact hc
                | ok s =>
                  rw [hc1] at hc
                  exact hc
            · rw [if_neg h4]
              exact metaGE_refl st
  exact hGE cno nm c h

theorem C7_reported_count_monotone_witness :
    lookupMeta aMetaState.complex_meta "1" = some (JVal.str "A", 5) ∧
    ∃ nm' c',
      lookupMeta (handle_response true aMetaState aMarkerResp).complex_meta
        "1" = some (nm', c') ∧ (5 : Int) ≤ c' :=
  ⟨by decide, C7_reported_count_monotone true aMetaState aMarkerResp "1"
    (JVal.str "A") 5 (by decide)⟩
